import Mathlib

deriving instance DecidableEq for Except

/-!
Shallow embedding of the tamper-evident ledger core of av-safe-toolkit
(avsafe_descriptors): JSON canonicalization, domain-separated hash chaining,
signing/verification policy, ledger replay, and the compliance rule evaluator.

Python byte strings are modelled as `List Nat` (each entry one byte).
Python floats are modelled as rationals plus an explicit non-finiteness kind;
a `JNum` also carries the decimal literal `lit` that `json.dumps` would emit
for it, since the exact float-to-decimal rendering is a property of the
runtime, not of this code.  The concrete SHA-256 / BLAKE2b compression
functions and the Ed25519 verification equation live in external libraries
(hashlib / PyNaCl); they enter the model as function parameters, while all
control flow, message assembly and dispatch logic is translated from the
source.
-/

namespace AVSafe

/-! ## Bytes and hex (Python `bytes`, `bytes.fromhex`, UTF-8 encoding) -/

/-- UTF-8 encoding of one character, as byte values. -/
def utf8EncodeCharNat (c : Char) : List Nat :=
  let n := c.toNat
  if n < 128 then [n]
  else if n < 2048 then [192 + n / 64, 128 + n % 64]
  else if n < 65536 then [224 + n / 4096, 128 + n / 64 % 64, 128 + n % 64]
  else [240 + n / 262144, 128 + n / 4096 % 64, 128 + n / 64 % 64, 128 + n % 64]

/-- UTF-8 bytes of a string, as natural numbers (Python `s.encode("utf-8")`). -/
def utf8Bytes (s : String) : List Nat :=
  (s.data.map utf8EncodeCharNat).join

/-- Value of a single hexadecimal digit character, if any. -/
def hexDigitVal? (c : Char) : Option Nat :=
  if '0' ≤ c ∧ c ≤ '9' then some (c.toNat - 48)
  else if 'a' ≤ c ∧ c ≤ 'f' then some (c.toNat - 87)
  else if 'A' ≤ c ∧ c ≤ 'F' then some (c.toNat - 55)
  else none

/-- `bytes.fromhex` on a character list: pairs of hex digits, with ASCII
spaces permitted between byte pairs; fails (Python `ValueError`) on stray
digits or non-hex characters. -/
def bytesFromHexChars : List Char → Option (List Nat)
  | [] => some []
  | ' ' :: rest => bytesFromHexChars rest
  | c1 :: c2 :: rest => do
      let hi ← hexDigitVal? c1
      let lo ← hexDigitVal? c2
      let bs ← bytesFromHexChars rest
      some ((16 * hi + lo) :: bs)
  | [_] => none

/-- Python `bytes.fromhex(s)`, `none` when it raises `ValueError`. -/
def bytesFromHex? (s : String) : Option (List Nat) :=
  bytesFromHexChars s.toList

/-! ## JSON values (the payloads and records the toolkit operates on) -/

/-- Finiteness class of a Python float. -/
inductive NumKind where
  | finite
  | nan
  | inf
  | ninf
deriving DecidableEq, Repr

/-- A Python number as it matters to this code: its rational value (meaningful
when finite), its finiteness kind, and the decimal literal `json.dumps` emits
for it when finite. -/
structure JNum where
  val : ℚ
  kind : NumKind
  lit : String
deriving DecidableEq, Repr

/-- Convenience constructor for a finite number with a given literal. -/
def JNum.fin (q : ℚ) (lit : String) : JNum := ⟨q, .finite, lit⟩

def JNum.isFinite (n : JNum) : Bool := n.kind = NumKind.finite

/-- JSON-representable Python values.  Objects are association lists in
insertion order (Python dicts preserve insertion order and have unique keys). -/
inductive Json where
  | null
  | bool (b : Bool)
  | num (n : JNum)
  | str (s : String)
  | arr (elems : List Json)
  | obj (entries : List (String × Json))

def Json.isNull : Json → Bool
  | .null => true
  | _ => false

/-- Python truthiness of a JSON-representable value (`bool(x)`).
NaN and infinities are truthy regardless of `val`. -/
def Json.truthy : Json → Bool
  | .null => false
  | .bool b => b
  | .num n => if n.kind = NumKind.finite then decide (n.val ≠ 0) else true
  | .str s => s ≠ ""
  | .arr xs => !xs.isEmpty
  | .obj l => !l.isEmpty

/-- Python equality test of a JSON value against a string (`x == s` where `s`
is a `str`): true only when `x` is that same string. -/
def Json.eqStr : Json → String → Bool
  | .str t, s => t = s
  | _, _ => false

/-- Python `str.lower()` (and `casefold()` for the ASCII data seen here),
defined on the character list so that concrete instances evaluate. -/
def pyLower (s : String) : String :=
  String.mk (s.data.map Char.toLower)

/-- Python `str.strip()`: whitespace removed from both ends. -/
def pyStrip (s : String) : String :=
  String.mk (((s.data.dropWhile Char.isWhitespace).reverse.dropWhile Char.isWhitespace).reverse)

/-- First binding of a key in an association list (`dict` lookup; dict keys
are unique, so first = only). -/
def jlookup (l : List (String × Json)) (k : String) : Option Json :=
  match l.find? (fun p => p.1 = k) with
  | some p => some p.2
  | none => none

/-- Python `d.get(k)` / `d.get(k, None)`: `None` both when the key is absent
and when it is bound to `None`. -/
def jgetOpt (l : List (String × Json)) (k : String) : Option Json :=
  match jlookup l k with
  | some .null => none
  | some v => some v
  | none => none

/-- Python `d.get(k, default)`. -/
def jgetD (l : List (String × Json)) (k : String) (default : Json) : Json :=
  match jlookup l k with
  | some v => v
  | none => default

/-! ## `json.dumps` with `sort_keys=True` and compact separators

`hash_chain.canonical_json` calls `json.dumps(obj, ensure_ascii=False,
sort_keys=True, separators=(",", ":"), allow_nan=False)`;
`integrity.canonical_json` calls `json.dumps(filtered, sort_keys=True,
separators=(",", ":"))`, i.e. with the defaults `ensure_ascii=True` and
`allow_nan=True`.  Both variants are modelled by one function parameterized
by those two flags. -/

/-- Lowercase hexadecimal digit. -/
def hexLowerDigit (n : Nat) : Char :=
  if n < 10 then Char.ofNat (48 + n) else Char.ofNat (87 + n)

/-- Four lowercase hex digits, most significant first (`"%04x"`). -/
def hex4 (n : Nat) : String :=
  String.mk [hexLowerDigit (n / 4096 % 16), hexLowerDigit (n / 256 % 16),
             hexLowerDigit (n / 16 % 16), hexLowerDigit (n % 16)]

/-- JSON string-character escaping as done by `json.dumps`: quote, backslash
and control characters are always escaped; with `ensure_ascii=True` every
character outside `0x20`–`0x7e` is `\uXXXX`-escaped (with surrogate pairs
above `0xffff`), otherwise non-ASCII text is emitted literally. -/
def escChar (ensureAscii : Bool) (c : Char) : String :=
  if c = '"' then "\\\""
  else if c = '\\' then "\\\\"
  else if c.toNat = 8 then "\\b"
  else if c.toNat = 9 then "\\t"
  else if c.toNat = 10 then "\\n"
  else if c.toNat = 12 then "\\f"
  else if c.toNat = 13 then "\\r"
  else if c.toNat < 32 then "\\u" ++ hex4 c.toNat
  else if ensureAscii ∧ c.toNat > 126 then
    if c.toNat < 65536 then "\\u" ++ hex4 c.toNat
    else
      "\\u" ++ hex4 (55296 + (c.toNat - 65536) / 1024) ++
      "\\u" ++ hex4 (56320 + (c.toNat - 65536) % 1024)
  else String.singleton c

/-- A JSON string literal with surrounding quotes. -/
def encodeString (ensureAscii : Bool) (s : String) : String :=
  "\"" ++ String.join (s.toList.map (escChar ensureAscii)) ++ "\""

/-- What `json.dumps` emits for a number: the decimal literal for finite
values, the special tokens for non-finite floats (only legal when
`allow_nan=True`). -/
def numToken (n : JNum) : String :=
  match n.kind with
  | .finite => n.lit
  | .nan => "NaN"
  | .inf => "Infinity"
  | .ninf => "-Infinity"

/-- Python `repr` of a non-finite float, as used in the `allow_nan=False`
error message. -/
def numRepr (n : JNum) : String :=
  match n.kind with
  | .finite => n.lit
  | .nan => "nan"
  | .inf => "inf"
  | .ninf => "-inf"

/-- `sort_keys=True`: object entries sorted by key (Python's stable sort;
dict keys are unique so stability is moot). -/
def sortEntries (l : List (String × Json)) : List (String × Json) :=
  List.insertionSort (fun a b => a.1 ≤ b.1) l

mutual

/-- `json.dumps(·, sort_keys=True, separators=(",", ":"))` with the given
`allow_nan` / `ensure_ascii` flags; `.error` is the `ValueError` raised on a
non-finite float when `allow_nan=False`. -/
def dumpJson (allowNan ensureAscii : Bool) : Json → Except String String
  | .null => .ok "null"
  | .bool true => .ok "true"
  | .bool false => .ok "false"
  | .num n =>
      if n.kind = NumKind.finite ∨ allowNan then .ok (numToken n)
      else .error ("Out of range float values are not JSON compliant: " ++ numRepr n)
  | .str s => .ok (encodeString ensureAscii s)
  | .arr xs => do
      let ss ← dumpList allowNan ensureAscii xs
      .ok ("[" ++ String.intercalate "," ss ++ "]")
  | .obj kvs => do
      let es ← dumpEntries allowNan ensureAscii (sortEntries kvs)
      .ok ("\x7b" ++ String.intercalate "," es ++ "\x7d")
termination_by j => sizeOf j
decreasing_by
  all_goals simp_wf
  all_goals
    try rw [show sizeOf (sortEntries kvs) = sizeOf kvs from
      List.Perm.sizeOf_eq_sizeOf (List.perm_insertionSort _ kvs)]
  all_goals omega

/-- Array elements, in the order given. -/
def dumpList (allowNan ensureAscii : Bool) : List Json → Except String (List String)
  | [] => .ok []
  | x :: xs => do
      let s ← dumpJson allowNan ensureAscii x
      let ss ← dumpList allowNan ensureAscii xs
      .ok (s :: ss)
termination_by xs => sizeOf xs
decreasing_by all_goals (simp_wf; try omega)

/-- Object entries (`"key":value`), in the order given (already sorted). -/
def dumpEntries (allowNan ensureAscii : Bool) :
    List (String × Json) → Except String (List String)
  | [] => .ok []
  | (k, v) :: rest => do
      let sv ← dumpJson allowNan ensureAscii v
      let srest ← dumpEntries allowNan ensureAscii rest
      .ok ((encodeString ensureAscii k ++ ":" ++ sv) :: srest)
termination_by l => sizeOf l
decreasing_by all_goals (simp_wf; try omega)

end

mutual

/-- Whether a value recursively contains a non-finite float
(`NaN` / `Infinity` / `-Infinity`). -/
def containsNonFinite : Json → Bool
  | .null => false
  | .bool _ => false
  | .num n => !n.isFinite
  | .str _ => false
  | .arr xs => containsNonFiniteList xs
  | .obj kvs => containsNonFiniteEntries kvs

def containsNonFiniteList : List Json → Bool
  | [] => false
  | x :: xs => containsNonFinite x || containsNonFiniteList xs

def containsNonFiniteEntries : List (String × Json) → Bool
  | [] => false
  | (_, v) :: rest => containsNonFinite v || containsNonFiniteEntries rest

end

/-! ## `avsafe_descriptors/integrity/hash_chain.py` -/

/-- `hash_chain.canonical_json`: stable JSON string, UTF-8, sorted keys,
minimal separators, NaN/Infinity rejected (`allow_nan=False`,
`ensure_ascii=False`).  `.error` models the raised `ValueError`. -/
def canonical_json (obj : Json) : Except String String :=
  dumpJson false false obj

/-- `integrity.canonical_json` (the older helper in
`avsafe_descriptors/integrity/integrity.py`): drops `None`-valued top-level
keys, then `json.dumps(filtered, sort_keys=True, separators=(",", ":"))` with
the *default* `allow_nan=True` and `ensure_ascii=True`. -/
def integrity_canonical_json (data : List (String × Json)) : Except String String :=
  dumpJson true true (.obj (data.filter (fun p => !p.2.isNull)))

/-- The concrete digest primitives of `hashlib`, abstracted: `sha256hex b`
stands for `hashlib.sha256(b).hexdigest()` and `blake2bHex d b` for
`hashlib.blake2b(b, digest_size=d).hexdigest()`. -/
structure HashFns where
  sha256hex : List Nat → String
  blake2bHex : Nat → List Nat → String

/-- `hash_chain._new_hasher`: algorithm dispatch, lower-cased; 32-byte
BLAKE2b for parity with SHA-256; unsupported names raise `ValueError`. -/
def new_hasher (F : HashFns) (alg : String) : Except String (List Nat → String) :=
  let alg := pyLower alg
  if alg = "sha256" then .ok F.sha256hex
  else if alg = "blake2b" then .ok (F.blake2bHex 32)
  else .error ("Unsupported hash alg: " ++ alg)

/-- `hash_chain.DOMAIN`: domain label mixed into every chain hash. -/
def DOMAIN : List Nat := utf8Bytes "avsafe:chain:v1"

/-- `hash_chain.chain_hash(prev_hex, payload, alg=..., domain=...)`:
`H(domain || bytes.fromhex(prev_hex) || canonical_json(payload).encode())`.
`prev_hex` is skipped when falsy (None or empty string); invalid hex and
non-canonicalizable payloads raise (`.error`). -/
def chain_hash (F : HashFns) (prev_hex : Option String) (payload : List (String × Json))
    (alg : String := "sha256") (domain : List Nat := DOMAIN) : Except String String := do
  let h ← new_hasher F alg
  let acc := domain
  let acc ← match prev_hex with
    | some s =>
        if s ≠ "" then
          match bytesFromHex? s with
          | some bs => pure (acc ++ bs)
          | none => .error "prev_hex must be a valid hex digest"
        else pure acc
    | none => pure acc
  let cj ← match canonical_json (.obj payload) with
    | .ok s => pure s
    | .error e => .error ("Payload is not JSON-canonicalizable: " ++ e)
  pure (h (acc ++ utf8Bytes cj))

/-- A record: a payload dict merged with a `chain` block. -/
abbrev Record := List (String × Json)

/-- The JSON value stored in a chain block's `prev` field. -/
def prevJson : Option String → Json
  | some s => .str s
  | none => .null

/-- `hash_chain.make_record(payload, prev_hex, alg=..., include_prev=...)`:
payload must not already contain a `chain` key; the chain block holds the
algorithm, the digest, and (by default) the previous hash. -/
def make_record (F : HashFns) (payload : List (String × Json)) (prev_hex : Option String)
    (alg : String := "sha256") (include_prev : Bool := true) : Except String Record := do
  if (jlookup payload "chain").isSome then
    .error "Payload must not contain a \x27chain\x27 key"
  else
    let digest ← chain_hash F prev_hex payload alg
    let chainBlock : List (String × Json) :=
      [("alg", .str alg), ("hash", .str digest)] ++
        (if include_prev then [("prev", prevJson prev_hex)] else [])
    pure (payload ++ [("chain", .obj chainBlock)])

/-- `hash_chain.verify_link(prev_hex, record, domain=...)`: returns
`(ok, reason)`; never raises (the recompute is wrapped in `try/except`).
Exception texts from the recompute are carried into the reason string. -/
def verify_link (F : HashFns) (prev_hex : Option String) (record : Record)
    (domain : List Nat := DOMAIN) : Bool × String :=
  match jlookup record "chain" with
  | some (.obj ch) =>
      let expected := jgetOpt ch "hash"
      let algJ := jgetD ch "alg" (.str "sha256")
      let rec_prev := jgetOpt ch "prev"
      match expected with
      | some (.str hexp) =>
          -- `rec_prev is not None and prev_hex is not None and rec_prev != prev_hex`
          if rec_prev.isSome ∧ prev_hex.isSome ∧
              !(rec_prev.getD .null).eqStr (prev_hex.getD "") then
            (false, "prev pointer does not match provided prev hash")
          else
            let payload := record.filter (fun p => p.1 ≠ "chain")
            match algJ with
            | .str alg =>
                (match chain_hash F prev_hex payload alg domain with
                 | .ok recomputed =>
                     if recomputed ≠ hexp then (false, "digest mismatch")
                     else (true, "ok")
                 | .error e => (false, "recompute failed: " ++ e))
            | _ =>
                -- `alg.lower()` on a non-string raises AttributeError,
                -- caught by the same try/except around the recompute
                (false, "recompute failed: AttributeError")
      | _ => (false, "missing expected hash")
  | _ => (false, "missing or invalid \x27chain\x27 block")

/-- Stored `record["chain"]["hash"]` (always present as a string when
`verify_link` succeeded). -/
def storedHash (record : Record) : Option String :=
  match jlookup record "chain" with
  | some (.obj ch) =>
      match jlookup ch "hash" with
      | some (.str h) => some h
      | _ => none
  | _ => none

/-- Recursion core of `hash_chain.verify_chain`: index-tracking forward scan
that stops at the first failing link; `prev` advances to the stored hash. -/
def verify_chain_from (F : HashFns) (domain : List Nat) (prev : Option String)
    (idx : Nat) : List Record → Bool × Option Nat × Option String
  | [] => (true, none, none)
  | rec :: rest =>
      match verify_link F prev rec domain with
      | (true, _) => verify_chain_from F domain (storedHash rec) (idx + 1) rest
      | (false, reason) => (false, some idx, some reason)

/-- `hash_chain.verify_chain(records, domain=...)`: `(ok, index, reason)` with
`index`/`reason` the first failing record, or `none`s when the whole
sequence is valid. -/
def verify_chain (F : HashFns) (records : List Record)
    (domain : List Nat := DOMAIN) : Bool × Option Nat × Option String :=
  verify_chain_from F domain none 0 records

/-! ## `avsafe_descriptors/integrity/signing.py`

The runtime environment of the signing module — which optional crypto
backends imported, the two environment variables, and the backends'
signing / verification primitives — is a parameter `CryptoEnv`.  The
Ed25519 primitives are abstract functions: `naclVerify pk msg sig` stands
for `VerifyKey(pk).verify(msg, sig)` succeeding (False covers
`BadSignatureError` as well as size errors raised and caught inside the
same `try`). -/

structure CryptoEnv where
  haveNacl : Bool
  haveCrypto : Bool
  /-- `AVSAFE_STRICT_CRYPTO == "1"` -/
  strict : Bool
  /-- `AVSAFE_PRIV_HEX`, already collapsed to `none` when unset or empty. -/
  envSeedHex : Option String
  /-- PyNaCl signing: optional 32-byte seed (none = fresh ephemeral key, the
  run's randomness being part of the environment) and data, producing
  `(signature_hex, public_key_hex)`. -/
  naclSign : Option (List Nat) → List Nat → String × String
  cryptoSign : Option (List Nat) → List Nat → String × String
  naclVerify : List Nat → List Nat → List Nat → Bool
  cryptoVerify : List Nat → List Nat → List Nat → Bool

/-- `signing.SIGN_DOMAIN`. -/
def SIGN_DOMAIN : List Nat := utf8Bytes "avsafe:sign:v1"

/-- Result dict of `sign_bytes`. -/
structure SigResult where
  scheme : String
  signature_hex : String
  public_key_hex : Option String
deriving DecidableEq, Repr

/-- `signing._coerce_seed`: hex-decode, accept 32 bytes, truncate 64 to the
first 32, otherwise `ValueError`. -/
def coerce_seed (seed_hex : String) : Except String (List Nat) :=
  match bytesFromHex? seed_hex with
  | none => .error "non-hexadecimal number found in fromhex() arg"
  | some raw =>
      if raw.length = 32 then .ok raw
      else if raw.length = 64 then .ok (raw.take 32)
      else .error "private_key_hex must be 32 or 64 bytes (64 or 128 hex chars)"

/-- `signing.sign_bytes(data, private_key_hex)`: prefer PyNaCl, then
cryptography, then — unless strict mode is on — the non-cryptographic
`sha256-demo` MAC `SHA256(secret || data)`. -/
def sign_bytes (F : HashFns) (env : CryptoEnv) (data : List Nat)
    (private_key_hex : Option String := none) : Except String SigResult := do
  -- `seed_hex = private_key_hex or _env_seed_hex()`
  let seed_hex : Option String :=
    match private_key_hex with
    | some s => if s ≠ "" then some s else env.envSeedHex
    | none => env.envSeedHex
  if env.haveNacl then
    let seed ← match seed_hex with
      | none => pure none
      | some s => do let raw ← coerce_seed s; pure (some raw)
    let (sig, pub) := env.naclSign seed data
    pure ⟨"ed25519", sig, some pub⟩
  else if env.haveCrypto then
    let seed ← match seed_hex with
      | none => pure none
      | some s => do let raw ← coerce_seed s; pure (some raw)
    let (sig, pub) := env.cryptoSign seed data
    pure ⟨"ed25519", sig, some pub⟩
  else if env.strict then
    .error "Real crypto required (set libsodium/PyNaCl or cryptography)."
  else
    -- LAST-RESORT FALLBACK (NOT CRYPTOGRAPHIC)
    let secret := utf8Bytes (match seed_hex with | some s => if s ≠ "" then s else "demo-secret" | none => "demo-secret")
    pure ⟨"sha256-demo", F.sha256hex (secret ++ data), none⟩

/-- `signing.verify_bytes(data, signature_hex, public_key_hex, scheme)`:
boolean verdict, never raises.  Note that it does not consult strict mode. -/
def verify_bytes (F : HashFns) (env : CryptoEnv) (data : List Nat)
    (signature_hex : String) (public_key_hex : Option String)
    (scheme : String := "ed25519") : Bool :=
  let scheme := pyLower scheme
  -- `if scheme == "ed25519" and public_key_hex:`
  if scheme = "ed25519" ∧ (match public_key_hex with | some s => s ≠ "" | none => false) = true then
    let pk := public_key_hex.getD ""
    if env.haveNacl then
      match bytesFromHex? pk, bytesFromHex? signature_hex with
      | some pkb, some sigb => env.naclVerify pkb data sigb
      | _, _ => false
    else if env.haveCrypto then
      match bytesFromHex? pk, bytesFromHex? signature_hex with
      | some pkb, some sigb => env.cryptoVerify pkb data sigb
      | _, _ => false
    else false
  else if scheme = "sha256-demo" then
    F.sha256hex (utf8Bytes "demo-secret" ++ data) = signature_hex
  else false

/-- `signing.sign_payload(payload, private_key_hex)`: sign the
domain-separated canonical payload (`SIGN_DOMAIN + canonical_json(payload)`). -/
def sign_payload (F : HashFns) (env : CryptoEnv) (payload : List (String × Json))
    (private_key_hex : Option String := none) : Except String SigResult := do
  let cj ← canonical_json (.obj payload)
  sign_bytes F env (SIGN_DOMAIN ++ utf8Bytes cj) private_key_hex

/-! ## `avsafe_descriptors/report/render_html.py`: `_verify_chain_and_signatures`

This verifier re-walks the minutes, recomputing each chain hash (always with
the default `sha256` algorithm) and classifying each record's signature
block.  Unlike `hash_chain.verify_chain` it does not stop at the first break,
and it accepts — as a documented back-compat path — Ed25519 signatures over
the *raw* canonical payload without the `SIGN_DOMAIN` prefix.  Uncaught
Python exceptions (attribute access on truthy non-dict values) are modelled
as `.error`. -/

inductive SigStatus where
  | valid
  | invalid
  | missing
  | unverified
deriving DecidableEq, Repr

/-- `rec.get("chain", {}) or {}` followed by using the result as a dict:
falsy values collapse to the empty dict, truthy non-dicts raise
`AttributeError` at the first `.get`. -/
def chainDictOf (rec : Record) : Except String (List (String × Json)) :=
  let v := jgetD rec "chain" (.obj [])
  if !v.truthy then .ok []
  else match v with
    | .obj l => .ok l
    | _ => .error "AttributeError: object has no attribute get"

/-- Signature classification of one record (the signature half of the loop
body of `_verify_chain_and_signatures`). -/
def classifySig (env : CryptoEnv) (rec : Record) :
    Except String SigStatus := do
  let payload := rec.filter (fun p => p.1 ≠ "chain")
  let chain ← chainDictOf rec
  -- `scheme = (chain.get("scheme") or "").lower()`
  let scheme ← match jlookup chain "scheme" with
    | none => Except.ok ""
    | some v =>
        if !v.truthy then Except.ok ""
        else match v with
          | .str s => Except.ok (pyLower s)
          | _ => Except.error "AttributeError: object has no attribute lower"
  let sigJ := jlookup chain "signature_hex"
  let pkJ := jlookup chain "public_key_hex"
  -- `if scheme == "ed25519" and sig_hex and pk_hex:`
  if scheme = "ed25519" ∧ (sigJ.getD .null).truthy ∧ (pkJ.getD .null).truthy then
    if !env.haveNacl then pure .unverified
    else
      match pkJ, sigJ with
      | some (.str pks), some (.str sigs) =>
          match bytesFromHex? pks, bytesFromHex? sigs with
          | some pk, some sig =>
              if pk.length ≠ 32 then pure .invalid   -- VerifyKey rejects the key size
              else
                match canonical_json (.obj payload) with
                | .error _ => pure .invalid          -- canonical_json raised inside the try
                | .ok cj =>
                    if env.naclVerify pk (SIGN_DOMAIN ++ utf8Bytes cj) sig then pure .valid
                    else if env.naclVerify pk (utf8Bytes cj) sig then pure .valid
                    else pure .invalid
          | _, _ => pure .invalid                    -- bytes.fromhex ValueError
      | _, _ => pure .invalid                        -- bytes.fromhex TypeError
  else pure .missing

/-- Chain-continuity half of the loop body: recompute
`chain_hash(prev_hash, payload)` (default `sha256`), `None` when any
exception was caught. -/
def recomputeHash (F : HashFns) (prevHash : Option Json) (rec : Record) :
    Option String :=
  let payload := rec.filter (fun p => p.1 ≠ "chain")
  match prevHash with
  | none => (chain_hash F none payload).toOption
  | some v =>
      if !v.truthy then (chain_hash F none payload).toOption
      else match v with
        | .str s => (chain_hash F (some s) payload).toOption
        | _ => none  -- bytes.fromhex(non-str) raises TypeError, caught here

/-- `if not rec_hash or not computed or rec_hash != computed` -/
def isChainBreak (recHashJ : Json) (computed : Option String) : Bool :=
  if !recHashJ.truthy then true
  else match computed with
    | none => true
    | some c => if c = "" then true else !recHashJ.eqStr c

/-- Loop state of `_verify_chain_and_signatures`. -/
structure VState where
  prevHash : Option Json
  idx : Nat
  breaks : List Nat
  total : Nat
  valid : Nat
  invalid : Nat
  missing : Nat
  unverified : Nat

def VState.init : VState := ⟨none, 0, [], 0, 0, 0, 0, 0⟩

/-- Count a classified signature into the summary counters: `total` counts
recognized signature blocks, `missing` the rest. -/
def VState.countSig (st : VState) (s : SigStatus) : VState :=
  match s with
  | .valid => { st with total := st.total + 1, valid := st.valid + 1 }
  | .invalid => { st with total := st.total + 1, invalid := st.invalid + 1 }
  | .unverified => { st with total := st.total + 1, unverified := st.unverified + 1 }
  | .missing => { st with missing := st.missing + 1 }

/-- One loop iteration of `_verify_chain_and_signatures`. -/
def vstep (F : HashFns) (env : CryptoEnv) (st : VState) (rec : Record) :
    Except String VState := do
  let chain ← chainDictOf rec
  let recHashJ := jgetD chain "hash" .null
  let computed := recomputeHash F st.prevHash rec
  let breaks := if isChainBreak recHashJ computed then st.breaks ++ [st.idx] else st.breaks
  let status ← classifySig env rec
  let st := { st with prevHash := some recHashJ, idx := st.idx + 1, breaks := breaks }
  pure (st.countSig status)

/-- The forward scan over all minutes. -/
def vrun (F : HashFns) (env : CryptoEnv) : VState → List Record → Except String VState
  | st, [] => .ok st
  | st, rec :: rest => do
      let st' ← vstep F env st rec
      vrun F env st' rest

structure ChainSummary where
  ok : Bool
  break_indices : List Nat
  n : Nat
deriving DecidableEq, Repr

structure SigSummary where
  total : Nat
  valid : Nat
  invalid : Nat
  missing : Nat
  unverified : Nat
deriving DecidableEq, Repr

structure LedgerVerdict where
  chain : ChainSummary
  sigs : SigSummary
  verdict : String
deriving DecidableEq, Repr

/-- The human-readable verdict line. -/
def verdictLine (n : Nat) (breaks : List Nat) (s : SigSummary) : String :=
  let chainPart :=
    if breaks.isEmpty then "Chain contiguous (n=" ++ toString n ++ ")"
    else
      let sample := String.intercalate ", " ((breaks.take 5).map toString)
      let more := if breaks.length ≤ 5 then "" else " (+" ++ toString (breaks.length - 5) ++ " more)"
      "Chain breaks @ [" ++ sample ++ "]" ++ more
  let sigPart :=
    if s.total = 0 then "no signatures"
    else if s.invalid > 0 then
      toString s.valid ++ "/" ++ toString s.total ++ " valid, " ++ toString s.invalid ++ " invalid"
    else if s.unverified > 0 then
      toString s.total ++ " signed, but " ++ toString s.unverified ++ " unverified (crypto unavailable)"
    else toString s.valid ++ "/" ++ toString s.total ++ " valid"
  chainPart ++ "; signatures: " ++ sigPart ++ "."

/-- `render_html._verify_chain_and_signatures(minutes)`. -/
def verify_chain_and_signatures (F : HashFns) (env : CryptoEnv)
    (minutes : List Record) : Except String LedgerVerdict := do
  let st ← vrun F env VState.init minutes
  let sigs : SigSummary := ⟨st.total, st.valid, st.invalid, st.missing, st.unverified⟩
  pure ⟨⟨st.breaks.isEmpty, st.breaks, minutes.length⟩, sigs,
        verdictLine minutes.length st.breaks sigs⟩

/-! ## `avsafe_descriptors/rules/ieee_1789.py`

Numbers reaching this module are Python ints/floats (bools included, since
`isinstance(x, int)` holds for them); `float(x)` on a numeric string is not
modelled (profiles carry numbers), so a string where a number is expected is
treated as the malformed case. -/

/-- `isinstance(x, (int, float))` — true for bools as well. -/
def isPyNumber : Json → Bool
  | .num _ => true
  | .bool _ => true
  | _ => false

/-- Numeric value of a Python number (`float(x)` on an int/float/bool). -/
def pyNumVal : Json → ℚ
  | .num n => n.val
  | .bool b => if b then 1 else 0
  | _ => 0

/-- `float(x)`: `none` models the raised `TypeError`/`ValueError` for
non-numeric values. -/
def pyFloat? (v : Json) : Option ℚ :=
  if isPyNumber v then some (pyNumVal v) else none

/-- `float(x)` where failure propagates as an exception. -/
def pyFloatE (v : Json) : Except String ℚ :=
  match pyFloat? v with
  | some q => .ok q
  | none => .error "TypeError: float() argument must be a number"

/-- A normalized curve segment: band limits plus either `a`/`b` coefficients
(`allowed = a + b/f`), a constant `max_percent` cap, or neither. -/
structure Seg where
  fMin : ℚ
  fMax : ℚ
  ab : Option (ℚ × ℚ)
  maxPercent : Option ℚ
deriving DecidableEq, Repr

/-- One iteration of the segment-normalization loop: the whole `try` body;
any failure (missing key, unconvertible value) skips the segment. -/
def parseSeg (s : Json) : Option Seg :=
  match s with
  | .obj d => do
      let fmin ← jlookup d "f_min" >>= pyFloat?
      let fmax ← jlookup d "f_max" >>= pyFloat?
      let ab ←
        if (jlookup d "a").isSome ∧ (jlookup d "b").isSome then
          match (jlookup d "a" >>= pyFloat?), (jlookup d "b" >>= pyFloat?) with
          | some a, some b => some (some (a, b))
          | _, _ => none
        else some none
      let mp ←
        if (jlookup d "max_percent").isSome then
          match jlookup d "max_percent" >>= pyFloat? with
          | some m => some (some m)
          | none => none
        else some none
      some ⟨fmin, fmax, ab, mp⟩
  | _ => none

/-- `clip_allowed_range` handling of `normalize_curve_config`: kept only when
it is a two-element list of convertible numbers (conversion failure is caught
and collapses to `None`). -/
def clipOf (cfg : List (String × Json)) : Option (ℚ × ℚ) :=
  match jlookup cfg "clip_allowed_range" with
  | some (.arr [c0, c1]) =>
      match pyFloat? c0, pyFloat? c1 with
      | some a, some b => some (a, b)
      | _, _ => none
  | _ => none

/-- Result of `normalize_curve_config`: the (still unconverted) `default`
value, segments parsed, coerced and sorted ascending by `f_min`, and the
optional global clamp. -/
structure NormCfg where
  defaultVal : Json
  segments : List Seg
  clip : Option (ℚ × ℚ)

/-- `ieee_1789.normalize_curve_config(cfg)`.  Iterating a truthy
non-sequence `segments` value raises; iterating a string or dict yields
non-subscriptable elements that the per-segment `try` skips. -/
def normalize_curve_config (cfg : List (String × Json)) : Except String NormCfg := do
  let defaultVal := jgetD cfg "default" (.num (JNum.fin 1 "1.0"))
  let segSrc := jgetD cfg "segments" .null
  let rawSegs ←
    if !segSrc.truthy then Except.ok []
    else match segSrc with
      | .arr xs => Except.ok xs
      | .str _ => Except.ok []
      | .obj _ => Except.ok []
      | _ => Except.error "TypeError: object is not iterable"
  let segs := List.insertionSort (fun a b : Seg => a.fMin ≤ b.fMin) (rawSegs.filterMap parseSeg)
  pure ⟨defaultVal, segs, clipOf cfg⟩

/-- `_clip(value, lo, hi)` (same helper in `ieee_1789.py` and
`evaluator.py`): `max` with the lower bound, then `min` with the upper. -/
def pyClip (value : ℚ) (lo hi : Option ℚ) : ℚ :=
  let v := match lo with | some l => max l value | none => value
  match hi with | some h => min h v | none => v

/-- Allowed value contributed by a matching segment: `a + b / max(f, 1e-6)`,
else the constant `max_percent`, else the default stands. -/
def segAllowed (dflt f : ℚ) (s : Seg) : ℚ :=
  match s.ab with
  | some (a, b) => a + b / max f (1 / 1000000)
  | none =>
      match s.maxPercent with
      | some m => m
      | none => dflt

/-- `ieee_1789.allowed_mod_percent(f_hz, cfg)`: non-positive frequencies get
the default; otherwise the first segment (after sorting) with
`f_min ≤ f ≤ f_max` decides; the result is clamped by `clip_allowed_range`
when configured and floored at 0. -/
def allowed_mod_percent (f_hz : ℚ) (cfg : List (String × Json)) : Except String ℚ := do
  if f_hz ≤ 0 then
    pyFloatE (jgetD cfg "default" (.num (JNum.fin 1 "1.0")))
  else do
    let ncfg ← normalize_curve_config cfg
    let default_val ← pyFloatE ncfg.defaultVal
    let allowed :=
      match ncfg.segments.find? (fun s => decide (s.fMin ≤ f_hz) && decide (f_hz ≤ s.fMax)) with
      | some s => segAllowed default_val f_hz s
      | none => default_val
    let allowed :=
      match ncfg.clip with
      | some (lo, hi) => pyClip allowed (some lo) (some hi)
      | none => allowed
    pure (max 0 allowed)

/-! ## `avsafe_descriptors/rules/evaluator.py`

`evaluate` is modelled on the already-parsed list of minute records (the
file-reading `_collect_minutes` is I/O).  The profile is passed in its
dict form (the dataclass attribute branch of `_get_section`/`_get_meta`
reads the same data).  Uncaught Python exceptions on malformed profiles or
records are `.error`. -/

/-- `_get_section` (Mapping branch): `dict(profile.get(name, {}) or {})` —
falsy collapses to the empty dict, a truthy non-mapping raises. -/
def getSection (profile : List (String × Json)) (name : String) :
    Except String (List (String × Json)) :=
  let v := jgetD profile name (.obj [])
  if !v.truthy then .ok []
  else match v with
    | .obj l => .ok l
    | _ => .error "TypeError: cannot convert to a dict"

/-- Python `str(x)` for the values that can appear here. -/
def pyStrOf : Json → String
  | .str s => s
  | .num n => numToken n
  | .bool true => "True"
  | .bool false => "False"
  | .null => "None"
  | _ => "?"

/-- Python `x in y` for a string `x`: key membership in dicts, element
membership in lists, substring test in strings; raises otherwise. -/
def pyInStr (token : String) : Json → Except String Bool
  | .obj l => .ok (jlookup l token).isSome
  | .arr xs => .ok (xs.any (fun v => v.eqStr token))
  | .str s => .ok (decide (token.toList <:+: s.toList))
  | _ => .error "TypeError: argument of type is not iterable"

/-- `_normalize_locale(raw_locale, profile)`: `none` when the input is falsy,
otherwise the case-folded trimmed token, mapped through the profile's alias
table (Python `casefold` is modelled as lower-casing). -/
def normalize_locale (raw_locale : Option String) (profile : List (String × Json)) :
    Except String (Option String) := do
  match raw_locale with
  | none => pure none
  | some raw =>
      if raw = "" then pure none
      else do
        let token := pyLower (pyStrip raw)
        let locales ← getSection profile "locales"
        let aliasesJ := jgetD locales "aliases" (.obj [])
        let aliases ←
          if !aliasesJ.truthy then pure []
          else match aliasesJ with
            | .obj l => pure l
            | _ => Except.error "AttributeError: object has no attribute get"
        let noise ← getSection profile "noise"
        let laeq_limits := jgetD noise "laeq_limits_db" (.obj [])
        let direct ← pyInStr token laeq_limits
        if direct then pure (some token)
        else
          let mapped := jgetD aliases token .null
          if mapped.truthy then do
            let mapped_cf := pyLower (pyStrip (pyStrOf mapped))
            -- both branches of the final `if` return `mapped_cf`, but the
            -- membership test is still evaluated (and can raise)
            let _ ← pyInStr mapped_cf laeq_limits
            pure (some mapped_cf)
          else pure (some token)

/-- `_percentile(values, p)`: linear interpolation over the sorted sample,
`p ≤ 0` clamps to the minimum, `p ≥ 100` to the maximum, `none` on an empty
list. -/
def percentile (values : List ℚ) (p : ℚ) : Option ℚ :=
  match values with
  | [] => none
  | v :: vs =>
      if p ≤ 0 then some (vs.foldl min v)
      else if 100 ≤ p then some (vs.foldl max v)
      else
        let xs := List.insertionSort (fun a b : ℚ => a ≤ b) (v :: vs)
        let k : ℚ := ((xs.length - 1 : ℕ) : ℚ) * (p / 100)
        let f := ⌊k⌋
        let c := ⌈k⌉
        if f = c then some (xs.getD f.toNat 0)
        else
          let xf := xs.getD f.toNat 0
          let xc := xs.getD c.toNat 0
          some (xf + (xc - xf) * (k - (f : ℚ)))

/-- Round-half-to-even to an integer (Python's float formatting rounding;
the binary-double rounding of pathological midpoints is not modelled). -/
def roundHalfEven (q : ℚ) : ℤ :=
  let f := ⌊q⌋
  let r := q - (f : ℚ)
  if r < 1/2 then f
  else if r > 1/2 then f + 1
  else if f % 2 = 0 then f else f + 1

/-- Python `f"{q:.<prec>f}"` for non-negative values. -/
def fmtFixed (prec : Nat) (q : ℚ) : String :=
  let n := (roundHalfEven (q * ((10 : ℚ) ^ prec))).toNat
  if prec = 0 then toString n
  else
    let frac := toString (n % 10 ^ prec)
    let pad := String.mk (List.replicate (prec - frac.length) '0')
    toString (n / 10 ^ prec) ++ "." ++ pad ++ frac

/-- The noise section of the result. -/
structure NoiseOut where
  limit_db : Option ℚ
  pct_over : ℚ
  mean_laeq : Option ℚ
  percentiles : List (String × Option ℚ)
deriving DecidableEq, Repr

/-- The flicker section of the result. -/
structure FlickerOut where
  evaluated : Nat
  violations : Nat
  pct_violations : ℚ
  percentiles : List (String × Option ℚ)
deriving DecidableEq, Repr

/-- The trace block (audit info). -/
structure TraceOut where
  profile_id : Json
  schema_version : Json
  locale_requested : Option String
  locale_resolved : Option String
  noise_limit_source : Option String
  display_percentiles : List Json

/-- `evaluate`'s result dict; `none` for `noise`/`flicker` is the initial
empty dict of the zero-record early return. -/
structure EvalOut where
  n_minutes : Nat
  flags : List String
  noise : Option NoiseOut
  flicker : Option FlickerOut
  trace : TraceOut

/-- `m.get("audio") or {}` then `a.get("laeq_db")`, keeping the value when
`isinstance(v, (int, float))`. -/
def audioVal (m : Record) : Except String (Option ℚ) := do
  let a := jgetD m "audio" .null
  let ad ←
    if !a.truthy then pure []
    else match a with
      | .obj l => pure l
      | _ => Except.error "AttributeError: object has no attribute get"
  let v := jgetD ad "laeq_db" .null
  pure (if isPyNumber v then some (pyNumVal v) else none)

/-- `m.get("light") or {}` then the two TLM fields; `none` unless both are
numbers. -/
def lightFields (m : Record) : Except String (Option (ℚ × ℚ)) := do
  let l := jgetD m "light" .null
  let ld ←
    if !l.truthy then pure []
    else match l with
      | .obj d => pure d
      | _ => Except.error "AttributeError: object has no attribute get"
  let f := jgetD ld "tlm_freq_hz" .null
  let mod := jgetD ld "tlm_mod_percent" .null
  pure (if isPyNumber f ∧ isPyNumber mod then some (pyNumVal f, pyNumVal mod) else none)

/-- Clip bound: `clip_range[i]` when it exists, with `float(...)` applied
only when the element is not `None`. -/
def clipBound (clipRange : Json) (i : Nat) : Except String (Option ℚ) :=
  match clipRange with
  | .arr xs =>
      match xs.getD i .null with
      | .null => pure none
      | v => do let q ← pyFloatE v; pure (some q)
  | _ => pure none

/-- One record of the flicker loop: state is
(`violations`, `evaluated`, collected clipped modulation values). -/
def flickStep (flick_cfg : List (String × Json)) (pmCfg : List (String × Json))
    (st : Nat × Nat × List ℚ) (m : Record) : Except String (Nat × Nat × List ℚ) := do
  let (violations, evaluated, vals) := st
  match ← lightFields m with
  | none => pure st
  | some (f, mod) => do
      let clipRange := jgetD flick_cfg "clip_percent_mod_range" .null
      let lo ← clipBound clipRange 0
      let hi ← clipBound clipRange 1
      let mod_c := pyClip mod lo hi
      let allowed ← allowed_mod_percent f pmCfg
      pure (violations + (if mod_c > allowed then 1 else 0), evaluated + 1, vals ++ [mod_c])

/-- Order-preserving flag de-duplication at the end of `evaluate`. -/
def dedupFlags (flags : List String) : List String :=
  flags.foldl (fun acc f => if f ∈ acc then acc else acc ++ [f]) []

/-- The `pct_over` expression of `evaluate`: share of LAeq samples above the
limit; the denominator is guarded by `max(len(laeq_vals), 1)`; `0.0` when no
limit applies or no samples were seen. -/
def pct_over_of (limitQ : Option ℚ) (laeq_vals : List ℚ) : ℚ :=
  match limitQ with
  | some lq =>
      if !laeq_vals.isEmpty then
        100 * ((laeq_vals.countP (fun x => decide (x > lq)) : ℕ) : ℚ) /
          ((max laeq_vals.length 1 : ℕ) : ℚ)
      else 0
  | none => 0

/-- The `mean_laeq` expression of `evaluate`. -/
def mean_laeq_of (laeq_vals : List ℚ) : Option ℚ :=
  if laeq_vals.isEmpty then none else some (laeq_vals.sum / (laeq_vals.length : ℚ))

/-- The `pct_viol` expression of `evaluate`: `100 * violations /
max(evaluated, 1)`. -/
def pct_viol_of (violations evaluated : Nat) : ℚ :=
  100 * (violations : ℚ) / ((max evaluated 1 : ℕ) : ℚ)

/-- `float(limit) if limit is not None else None` for the selected noise
limit. -/
def limit_float_of (limitJ : Option Json) : Except String (Option ℚ) :=
  match limitJ with
  | none => pure none
  | some v => do let q ← pyFloatE v; pure (some q)

/-- Iterating the display `percentiles` value (a non-list raises). -/
def pct_list_of (pctListJ : Json) : Except String (List Json) :=
  match pctListJ with
  | .arr xs => pure xs
  | _ => Except.error "TypeError: object is not iterable"

/-- `flick.get("percent_mod_vs_freq", {})`, which must be a dict for the
later `.get` calls. -/
def pm_cfg_of (flick_cfg : List (String × Json)) : Except String (List (String × Json)) :=
  match jgetD flick_cfg "percent_mod_vs_freq" (.obj []) with
  | .obj l => pure l
  | _ => Except.error "AttributeError: object has no attribute get"

/-- `evaluator.evaluate(minutes_path, profile, locale)` on the parsed minute
records. -/
def evaluate (minutes : List Record) (profile : List (String × Json))
    (locale : Option String := none) : Except String EvalOut := do
  let n := minutes.length
  let trace0 : TraceOut :=
    ⟨jgetD profile "profile_id" .null, jgetD profile "schema_version" .null,
     locale, none, none, []⟩
  if n = 0 then
    pure ⟨0, ["no data"], none, none, trace0⟩
  else do
    -- Noise (LAeq) evaluation
    let noise_cfg ← getSection profile "noise"
    let laeq_limits := jgetD noise_cfg "laeq_limits_db" (.obj [])
    let loc_norm ← normalize_locale locale profile
    let limitPair : Option Json × String :=
      match laeq_limits with
      | .obj ll =>
          (match loc_norm with
           | some t =>
               if t ≠ "" ∧ (jlookup ll t).isSome then
                 (match jlookup ll t with
                  | some .null => none
                  | some v => some v
                  | none => none, t)
               else
                 (match jgetD ll "default" (.num (JNum.fin 55 "55")) with
                  | .null => none
                  | v => some v, "default")
           | none =>
               (match jgetD ll "default" (.num (JNum.fin 55 "55")) with
                | .null => none
                | v => some v, "default"))
      | _ => (none, "default")
    let limitJ := limitPair.1
    let limit_src := limitPair.2
    let limitQ ← limit_float_of limitJ
    let laeqOpts ← minutes.mapM audioVal
    let laeq_vals := laeqOpts.filterMap id
    let mean_laeq : Option ℚ := mean_laeq_of laeq_vals
    let pct_over : ℚ := pct_over_of limitQ laeq_vals
    let display_cfg ← getSection profile "display"
    let pctListJ := jgetD display_cfg "percentiles"
        (.arr [.num (JNum.fin 50 "50"), .num (JNum.fin 90 "90")])
    let pctList ← pct_list_of pctListJ
    let noisePercentiles ← pctList.mapM (fun p => do
      let q ← pyFloatE p
      pure ("p" ++ pyStrOf p, percentile laeq_vals q))
    let noiseOut : NoiseOut := ⟨limitQ, pct_over, mean_laeq, noisePercentiles⟩
    let noiseThreshold ← pyFloatE (jgetD noise_cfg "flag_threshold_pct" (.num (JNum.fin 10 "10.0")))
    let flags1 : List String :=
      if pct_over > noiseThreshold ∧ limitJ.isSome then
        ["Noise: LAeq > " ++ fmtFixed 0 ((limitQ.getD 0)) ++ " dB in " ++
          fmtFixed 1 pct_over ++ "% of minutes"]
      else []
    -- Flicker evaluation
    let flick_cfg ← getSection profile "flicker"
    let pmCfg ← pm_cfg_of flick_cfg
    let fstate ←
      minutes.foldlM (flickStep flick_cfg pmCfg) ((0 : Nat), (0 : Nat), ([] : List ℚ))
    let violations := fstate.1
    let evaluated := fstate.2.1
    let tlm_vals := fstate.2.2
    let pct_viol : ℚ := pct_viol_of violations evaluated
    let flickPercentiles ← pctList.mapM (fun p => do
      let q ← pyFloatE p
      pure ("p" ++ pyStrOf p, percentile tlm_vals q))
    let flickOut : FlickerOut := ⟨evaluated, violations, pct_viol, flickPercentiles⟩
    let flickThreshold ← pyFloatE (jgetD flick_cfg "flag_threshold_pct" (.num (JNum.fin 0 "0.0")))
    let flags2 : List String :=
      if pct_viol > flickThreshold then
        ["Flicker: " ++ fmtFixed 1 pct_viol ++ "% minutes exceed IEEE-1789 curve"]
      else []
    let trace : TraceOut :=
      { trace0 with locale_resolved := loc_norm, noise_limit_source := some limit_src,
                    display_percentiles := pctList }
    pure ⟨n, dedupFlags (flags1 ++ flags2), some noiseOut, some flickOut, trace⟩

/-! ## Auxiliary definitions used to state the verified properties -/

/-- Build a chain the way the producer loop does: `make_record` each payload
with the previous record's stored hash (default algorithm, `prev` included). -/
def buildChain (F : HashFns) : Option String → List (List (String × Json)) →
    Except String (List Record)
  | _, [] => .ok []
  | prev, p :: ps => do
      let r ← make_record F p prev
      let rest ← buildChain F (storedHash r) ps
      pure (r :: rest)

/-- Replace the `prev` binding inside a record's `chain` block. -/
def setChainPrev (r : Record) (v : Json) : Record :=
  r.map (fun p =>
    if p.1 = "chain" then
      (p.1, match p.2 with
            | .obj ch => Json.obj (ch.map (fun q => if q.1 = "prev" then (q.1, v) else q))
            | other => other)
    else p)

/-- Replace the `hash` binding inside a record's `chain` block. -/
def setChainHash (r : Record) (h : String) : Record :=
  r.map (fun p =>
    if p.1 = "chain" then
      (p.1, match p.2 with
            | .obj ch => Json.obj (ch.map (fun q => if q.1 = "hash" then (q.1, Json.str h) else q))
            | other => other)
    else p)

/-- The externally tracked previous hash the i-th record is verified against:
`none` for the first record, the (i-1)-th record's stored hash otherwise. -/
def threadedPrev (records : List Record) (i : Nat) : Option String :=
  match i with
  | 0 => none
  | j + 1 => storedHash (records.getD j [])

/-- Signature-summary counters obtained by classifying every record
independently (chain state plays no role in classification). -/
def sigCounts (env : CryptoEnv) (minutes : List Record) : Except String SigSummary := do
  let statuses ← minutes.mapM (classifySig env)
  pure ⟨statuses.countP (fun s => s ≠ SigStatus.missing),
        statuses.countP (fun s => s = SigStatus.valid),
        statuses.countP (fun s => s = SigStatus.invalid),
        statuses.countP (fun s => s = SigStatus.missing),
        statuses.countP (fun s => s = SigStatus.unverified)⟩

/-- Record shapes on which the report verifier cannot raise: the `chain`
value (when truthy) is a dict and its `scheme` (when truthy) a string. -/
def ChainWT (rec : Record) : Prop :=
  ∃ l, chainDictOf rec = .ok l ∧
    (match jlookup l "scheme" with
     | none => True
     | some v => v.truthy = false ∨ ∃ s, v = Json.str s)

/-- Digest families whose outputs look like real hex digests: nonempty and
hex-decodable (true of `hexdigest()` output). -/
def HexDigestFns (F : HashFns) : Prop :=
  ∀ bs, F.sha256hex bs ≠ "" ∧ (bytesFromHex? (F.sha256hex bs)).isSome

mutual

/-- `a` and `b` have the same logical content up to re-ordering of object
keys: equal at leaves, arrays pointwise related in order, objects pointwise
related (same keys in place, values related) and then permuted. -/
inductive KeyPerm : Json → Json → Prop where
  | null : KeyPerm .null .null
  | bool (b : Bool) : KeyPerm (.bool b) (.bool b)
  | num (n : JNum) : KeyPerm (.num n) (.num n)
  | str (s : String) : KeyPerm (.str s) (.str s)
  | arr {xs ys : List Json} : KeyPermList xs ys → KeyPerm (.arr xs) (.arr ys)
  | obj {l₁ lmid l₂ : List (String × Json)} :
      KeyPermEntries l₁ lmid → lmid.Perm l₂ → KeyPerm (.obj l₁) (.obj l₂)

/-- Pointwise `KeyPerm` on array elements (order preserved). -/
inductive KeyPermList : List Json → List Json → Prop where
  | nil : KeyPermList [] []
  | cons {x y : Json} {xs ys : List Json} :
      KeyPerm x y → KeyPermList xs ys → KeyPermList (x :: xs) (y :: ys)

/-- Pointwise relation on object entries: identical keys in identical
positions, values related by `KeyPerm`. -/
inductive KeyPermEntries : List (String × Json) → List (String × Json) → Prop where
  | nil : KeyPermEntries [] []
  | cons {k : String} {v w : Json} {t₁ t₂ : List (String × Json)} :
      KeyPerm v w → KeyPermEntries t₁ t₂ → KeyPermEntries ((k, v) :: t₁) ((k, w) :: t₂)

end

/-- Well-formed payloads as produced by Python dicts: object key lists are
duplicate-free at every nesting level. -/
inductive NodupKeys : Json → Prop where
  | null : NodupKeys .null
  | bool (b : Bool) : NodupKeys (.bool b)
  | num (n : JNum) : NodupKeys (.num n)
  | str (s : String) : NodupKeys (.str s)
  | arr {xs : List Json} : (∀ x ∈ xs, NodupKeys x) → NodupKeys (.arr xs)
  | obj {l : List (String × Json)} :
      (l.map Prod.fst).Nodup → (∀ p ∈ l, NodupKeys p.2) → NodupKeys (.obj l)

/-- A concrete stand-in digest family for evaluating witnesses (constant
functions; all quantified statements hold for arbitrary families). -/
def testF : HashFns := ⟨fun _ => "ab", fun _ _ => "cd"⟩

/-- A concrete environment with strict mode enabled and no crypto backend. -/
def strictEnv : CryptoEnv :=
  ⟨false, false, true, none, fun _ _ => ("", ""), fun _ _ => ("", ""),
   fun _ _ _ => false, fun _ _ _ => false⟩

/-- The previous-hash value the verifier threads to index `j`, starting from
`prev0`. -/
def prevAt (prev0 : Option String) (records : List Record) : Nat → Option String
  | 0 => prev0
  | j + 1 => storedHash (records.getD j [])

/-- The two-record chain built from payloads `{a:1}` and `{b:2}` under the
constant test digest family. -/
def buildTwo : List Record :=
  [[("a", Json.num (JNum.fin 1 "1")),
    ("chain", Json.obj [("alg", Json.str "sha256"), ("hash", Json.str "ab"), ("prev", Json.null)])],
   [("b", Json.num (JNum.fin 2 "2")),
    ("chain", Json.obj [("alg", Json.str "sha256"), ("hash", Json.str "ab"), ("prev", Json.str "ab")])]]

/-- An environment whose Ed25519 backend accepts exactly the signatures over
the raw canonical payload `{"a":1}` — a stand-in for a signer that signed
without the domain prefix. -/
def rawOnlyEnv : CryptoEnv :=
  ⟨true, false, false, none, fun _ _ => ("", ""), fun _ _ => ("", ""),
   fun _ msg _ => msg = utf8Bytes "\x7b\"a\":1\x7d", fun _ _ _ => false⟩

/-- A record over payload `{"a":1}` carrying an ed25519 signature block. -/
def signedRec : Record :=
  [("a", Json.num (JNum.fin 1 "1")),
   ("chain", Json.obj
     [("scheme", Json.str "ed25519"),
      ("signature_hex", Json.str "ff"),
      ("public_key_hex", Json.str "0000000000000000000000000000000000000000000000000000000000000000")])]

instance : IsTotal (String × Json) (fun a b => a.1 ≤ b.1) :=
  ⟨fun a b => le_total a.1 b.1⟩

instance : IsTrans (String × Json) (fun a b => a.1 ≤ b.1) :=
  ⟨fun _ _ _ hab hbc => le_trans hab hbc⟩

instance : IsAntisymm (String × Json) (fun a b => a.1 < b.1) :=
  ⟨fun a b hab hba => absurd hba (lt_asymm hab)⟩

/-- Concrete noise block of `evaluate` on one empty record and empty
profile. -/
def c9NoiseEx : NoiseOut := ⟨some 55, 0, none, [("p50", none), ("p90", none)]⟩

/-- Concrete flicker block of the same run. -/
def c9FlickEx : FlickerOut := ⟨0, 0, 0, [("p50", none), ("p90", none)]⟩

/-- Concrete full result of `evaluate [{}] {}`. -/
def c9OutEx : EvalOut :=
  ⟨1, [], some c9NoiseEx, some c9FlickEx,
   ⟨.null, .null, none, none, some "default",
    [Json.num (JNum.fin 50 "50"), Json.num (JNum.fin 90 "90")]⟩⟩

/-- The spec's example curve segment `\x7bf_min:80, f_max:120, a:0.1, b:600\x7d`. -/
def c10Seg : Json :=
  .obj [("f_min", .num (JNum.fin 80 "80")), ("f_max", .num (JNum.fin 120 "120")),
        ("a", .num (JNum.fin (1/10) "0.1")), ("b", .num (JNum.fin 600 "600"))]

/-- A flicker curve configuration holding that one segment and default 5. -/
def c10Curve : List (String × Json) :=
  [("segments", .arr [c10Seg]), ("default", .num (JNum.fin 5 "5.0"))]

/-- A minute record at 100 Hz with measured modulation 7 %. -/
def c10Rec : Record :=
  [("light", .obj [("tlm_freq_hz", .num (JNum.fin 100 "100")),
                   ("tlm_mod_percent", .num (JNum.fin 7 "7"))])]

/-- A profile carrying that flicker curve. -/
def c10Profile : List (String × Json) :=
  [("flicker", .obj [("percent_mod_vs_freq", .obj c10Curve)])]

/-- The result of `evaluate` on that record and profile: one record
evaluated, one violation. -/
def c10OutEx : EvalOut :=
  ⟨1, ["Flicker: 100.0% minutes exceed IEEE-1789 curve"],
   some ⟨some 55, 0, none, [("p50", none), ("p90", none)]⟩,
   some ⟨1, 1, 100, [("p50", some 7), ("p90", some 7)]⟩,
   ⟨.null, .null, none, none, some "default",
    [.num (JNum.fin 50 "50"), .num (JNum.fin 90 "90")]⟩⟩

/-! # Verified properties -/

/-! ## C1: strict mode and `sha256-demo` verification -/

/-- C1 counterexample: with strict mode enabled (`AVSAFE_STRICT_CRYPTO=1`)
and the demo MAC recomputing to the given signature hex,
`verify_bytes(message, sigHex, publicKey, "sha256-demo")` returns `true`,
not `false` — `verify_bytes` never consults strict mode. -/
theorem c1_strict_demo_verify_counterexample :
    strictEnv.strict = true ∧
    testF.sha256hex (utf8Bytes "demo-secret" ++ utf8Bytes "msg") = "ab" ∧
    verify_bytes testF strictEnv (utf8Bytes "msg") "ab" none "sha256-demo" = true := by
  refine ⟨rfl, rfl, ?_⟩
  decide

/-- C1 (amended): strict mode affects signing, not verification.  For every
environment without a crypto backend, `sign_bytes` in strict mode raises
`CryptoUnavailable`; `verify_bytes` under `"sha256-demo"` returns true
exactly when the demo MAC `SHA256("demo-secret" || message)` recomputes to
the signature hex, regardless of the strict flag. -/
theorem c1_strict_affects_signing_only (F : HashFns) (env : CryptoEnv)
    (data : List Nat) (sig : String) (pk : Option String) (seed : Option String)
    (hn : env.haveNacl = false) (hc : env.haveCrypto = false) (hs : env.strict = true) :
    verify_bytes F env data sig pk "sha256-demo"
      = decide (F.sha256hex (utf8Bytes "demo-secret" ++ data) = sig)
    ∧ sign_bytes F env data seed
      = .error "Real crypto required (set libsodium/PyNaCl or cryptography)." := by
  constructor
  · show verify_bytes F env data sig pk "sha256-demo" = _
    have hlow : pyLower "sha256-demo" = "sha256-demo" := by decide
    have hne : ("sha256-demo" = "ed25519") = False := by decide
    simp [verify_bytes, hlow, hne]
  · cases seed with
    | none => simp [sign_bytes, hn, hc, hs]
    | some s => simp [sign_bytes, hn, hc, hs]

/-- C1 witness: the amended statement evaluated at a concrete environment,
message and signature. -/
theorem c1_strict_affects_signing_only_witness :
    verify_bytes testF strictEnv (utf8Bytes "m") "xx" none "sha256-demo"
      = decide (testF.sha256hex (utf8Bytes "demo-secret" ++ utf8Bytes "m") = "xx")
    ∧ sign_bytes testF strictEnv (utf8Bytes "m") none
      = .error "Real crypto required (set libsodium/PyNaCl or cryptography)." :=
  c1_strict_affects_signing_only testF strictEnv (utf8Bytes "m") "xx" none none
    rfl rfl rfl

/-! ## C6: `chain_hash` is the digest of the single concatenated message -/

/-- C6: for every canonicalizable payload and valid previous-hash argument,
`chain_hash(prev, P, alg)` is the hex digest of
`H(DOMAIN || rawBytes(prev) || UTF8(canonical_json(P)))` with
`rawBytes(None) = empty`, `H` being SHA-256 or 32-byte BLAKE2b as selected by
`alg`; in particular `chain_hash(None, P) = H(DOMAIN || canonical_json(P))`. -/
theorem c6_chain_hash_digest (F : HashFns) (prev : Option String)
    (P : List (String × Json)) (cj : String) (pbs : List Nat)
    (hcj : canonical_json (.obj P) = .ok cj)
    (hprev : (match prev with | none => some [] | some s => bytesFromHex? s) = some pbs) :
    chain_hash F prev P "sha256" DOMAIN = .ok (F.sha256hex (DOMAIN ++ pbs ++ utf8Bytes cj))
    ∧ chain_hash F prev P "blake2b" DOMAIN = .ok (F.blake2bHex 32 (DOMAIN ++ pbs ++ utf8Bytes cj))
    ∧ chain_hash F none P "sha256" DOMAIN = .ok (F.sha256hex (DOMAIN ++ utf8Bytes cj)) := by
  have hsha : new_hasher F "sha256" = .ok F.sha256hex := by
    simp [new_hasher, show pyLower "sha256" = "sha256" by decide]
  have hbla : new_hasher F "blake2b" = .ok (F.blake2bHex 32) := by
    simp [new_hasher, show pyLower "blake2b" = "blake2b" by decide]
  refine ⟨?_, ?_, ?_⟩
  · cases prev with
    | none =>
        simp only [Option.some.injEq] at hprev
        simp [chain_hash, hsha, hcj, ← hprev]
    | some s =>
        by_cases hs : s = ""
        · subst hs
          simp only [bytesFromHex?, bytesFromHexChars] at hprev
          obtain rfl : ([] : List Nat) = pbs := Option.some.inj hprev
          simp [chain_hash, hsha, hcj]
        · simp only at hprev
          simp [chain_hash, hsha, hcj, hs, hprev]
  · cases prev with
    | none =>
        simp only [Option.some.injEq] at hprev
        simp [chain_hash, hbla, hcj, ← hprev]
    | some s =>
        by_cases hs : s = ""
        · subst hs
          simp only [bytesFromHex?, bytesFromHexChars] at hprev
          obtain rfl : ([] : List Nat) = pbs := Option.some.inj hprev
          simp [chain_hash, hbla, hcj]
        · simp only at hprev
          simp [chain_hash, hbla, hcj, hs, hprev]
  · simp [chain_hash, hsha, hcj]

/-- C6 witness: the digest law evaluated at a concrete payload and previous
hash. -/
theorem c6_chain_hash_digest_witness :
    chain_hash testF (some "00ff") [("a", Json.num (JNum.fin 1 "1"))] "sha256" DOMAIN
      = .ok (testF.sha256hex (DOMAIN ++ [0, 255] ++ utf8Bytes "\x7b\"a\":1\x7d"))
    ∧ chain_hash testF (some "00ff") [("a", Json.num (JNum.fin 1 "1"))] "blake2b" DOMAIN
      = .ok (testF.blake2bHex 32 (DOMAIN ++ [0, 255] ++ utf8Bytes "\x7b\"a\":1\x7d"))
    ∧ chain_hash testF none [("a", Json.num (JNum.fin 1 "1"))] "sha256" DOMAIN
      = .ok (testF.sha256hex (DOMAIN ++ utf8Bytes "\x7b\"a\":1\x7d")) :=
  c6_chain_hash_digest testF (some "00ff") [("a", Json.num (JNum.fin 1 "1"))]
    "\x7b\"a\":1\x7d" [0, 255]
    (by simp +decide [canonical_json, dumpJson, dumpEntries, dumpList, sortEntries,
          List.insertionSort, List.orderedInsert, encodeString, escChar, numToken])
    (by decide)

/-! ## Shared structural lemmas about built chains -/


/-- Absent keys in terms of the underlying search. -/
theorem jlookup_eq_none {l : List (String × Json)} {k : String} :
    jlookup l k = none ↔ List.find? (fun p => p.1 = k) l = none := by
  unfold jlookup
  cases h : List.find? (fun p => p.1 = k) l <;> simp

/-- Keys of `l₁` all differ from `k`, so lookup continues in `l₂`. -/
theorem jlookup_append_of_none {l₁ l₂ : List (String × Json)} {k : String}
    (h : jlookup l₁ k = none) : jlookup (l₁ ++ l₂) k = jlookup l₂ k := by
  unfold jlookup
  rw [List.find?_append, jlookup_eq_none.mp h]
  rfl

/-- A record with no `chain` key in its payload keeps the payload unchanged
under the chain-stripping filter. -/
theorem filter_no_chain {p : List (String × Json)} (h : jlookup p "chain" = none) :
    p.filter (fun q => !decide (q.1 = "chain")) = p := by
  rw [List.filter_eq_self]
  intro a ha
  have := List.find?_eq_none.mp (jlookup_eq_none.mp h) a ha
  simpa using this

/-- Shape of a successfully created record. -/
theorem make_record_ok {F : HashFns} {p : List (String × Json)} {prev : Option String}
    {r : Record} (h : make_record F p prev = .ok r) :
    jlookup p "chain" = none ∧ ∃ d, chain_hash F prev p = .ok d ∧
      r = p ++ [("chain", .obj [("alg", .str "sha256"), ("hash", .str d),
        ("prev", prevJson prev)])] := by
  unfold make_record at h
  by_cases hc : (jlookup p "chain").isSome
  · rw [if_pos hc] at h; exact absurd h (by simp)
  · rw [if_neg hc] at h
    cases hch : chain_hash F prev p "sha256" DOMAIN with
    | error e => rw [hch] at h; simp [Except.bind] at h
    | ok d =>
        rw [hch] at h
        simp only [Bind.bind, Except.bind, pure, Except.pure, Except.ok.injEq, if_true] at h
        refine ⟨Option.not_isSome_iff_eq_none.mp hc, d, rfl, ?_⟩
        subst h
        simp

/-- The built record's chain block is found by lookup. -/
theorem jlookup_chain_built {p : List (String × Json)} {ch : List (String × Json)}
    (h : jlookup p "chain" = none) :
    jlookup (p ++ [("chain", .obj ch)]) "chain" = some (.obj ch) := by
  rw [jlookup_append_of_none h]; rfl

/-- A link produced by `make_record` verifies against the same `prev`. -/
theorem verify_link_built {F : HashFns} {p : List (String × Json)} {prev : Option String}
    {d : String} (hnc : jlookup p "chain" = none) (hch : chain_hash F prev p = .ok d) :
    verify_link F prev (p ++ [("chain", .obj [("alg", .str "sha256"), ("hash", .str d),
      ("prev", prevJson prev)])]) DOMAIN = (true, "ok") := by
  cases prev with
  | none =>
      unfold verify_link
      rw [jlookup_chain_built hnc]
      simp only [prevJson]
      simp +decide [jgetOpt, jgetD, jlookup, List.find?, List.filter_append,
        filter_no_chain hnc, hch]
  | some s =>
      unfold verify_link
      rw [jlookup_chain_built hnc]
      simp only [prevJson]
      simp +decide [jgetOpt, jgetD, jlookup, List.find?, List.filter_append,
        filter_no_chain hnc, hch, Json.eqStr]

/-- The built record's stored hash. -/
theorem storedHash_built {p : List (String × Json)} {d : String} {a pv : Json}
    (h : jlookup p "chain" = none) :
    storedHash (p ++ [("chain", .obj [("alg", a), ("hash", .str d), ("prev", pv)])])
      = some d := by
  unfold storedHash
  rw [jlookup_append_of_none h]
  simp +decide [jlookup, List.find?]

/-- Every chain built by the producer loop verifies end to end. -/
theorem buildChain_verifies {F : HashFns} :
    ∀ {ps : List (List (String × Json))} {prev : Option String} {records : List Record}
      {idx : Nat}, buildChain F prev ps = .ok records →
      verify_chain_from F DOMAIN prev idx records = (true, none, none) := by
  intro ps
  induction ps with
  | nil => intro prev records idx h; cases h; rfl
  | cons p t ih =>
      intro prev records idx h
      unfold buildChain at h
      cases hmr : make_record F p prev with
      | error e => rw [hmr] at h; simp [Bind.bind, Except.bind] at h
      | ok r =>
          rw [hmr] at h
          simp only [Bind.bind, Except.bind] at h
          obtain ⟨hnc, d, hch, hr⟩ := make_record_ok hmr
          cases hbc : buildChain F (storedHash r) t with
          | error e => rw [hbc] at h; simp [Functor.map, Except.map] at h
          | ok rest =>
              rw [hbc] at h
              simp only [Functor.map, Except.map, pure, Except.pure, Except.ok.injEq] at h
              subst h
              unfold verify_chain_from
              rw [hr] at hbc ⊢
              rw [verify_link_built hnc hch]
              rw [storedHash_built hnc] at hbc
              rw [storedHash_built hnc]
              exact ih hbc



/-- Rewriting the `prev` binding of a built record. -/
theorem setChainPrev_built {p : List (String × Json)} {a hh pv : Json}
    (hnc : jlookup p "chain" = none) (v : Json) :
    setChainPrev (p ++ [("chain", .obj [("alg", a), ("hash", hh), ("prev", pv)])]) v
      = p ++ [("chain", .obj [("alg", a), ("hash", hh), ("prev", v)])] := by
  unfold setChainPrev
  rw [List.map_append]
  have hid : ∀ q ∈ p,
      (fun q : String × Json => if q.1 = "chain" then (q.1,
        match q.2 with
        | .obj ch => Json.obj (ch.map (fun w => if w.1 = "prev" then (w.1, v) else w))
        | other => other) else q) q = q := by
    intro q hq
    have := List.find?_eq_none.mp (jlookup_eq_none.mp hnc) q hq
    simp only [decide_eq_true_eq] at this
    simp [this]
  rw [List.map_congr_left hid]
  simp +decide

/-- A first link verifies regardless of what its stored `prev` field says:
the stored `prev` is only compared when the externally tracked hash is
non-null, and it is not part of the hashed material. -/
theorem verify_link_prev_ignored {F : HashFns} {p : List (String × Json)} {d : String}
    (hnc : jlookup p "chain" = none) (hch : chain_hash F none p = .ok d) (v : Json) :
    verify_link F none (p ++ [("chain", .obj [("alg", .str "sha256"),
      ("hash", .str d), ("prev", v)])]) DOMAIN = (true, "ok") := by
  unfold verify_link
  rw [jlookup_chain_built hnc]
  simp +decide [jgetOpt, jgetD, jlookup, List.find?, List.filter_append,
    filter_no_chain hnc, hch]

/-! ## C3: the first record's `prev` field is unauthenticated -/

/-- C3: the stored `chain.prev` of the first record is compared only when
both it and the tracked previous hash are non-null, and it is not hashed;
replacing it by an arbitrary string still verifies with no reported break. -/
theorem c3_first_prev_arbitrary (F : HashFns) (payloads : List (List (String × Json)))
    (records : List Record) (r0 : Record) (rest : List Record) (s : String)
    (hb : buildChain F none payloads = .ok records)
    (hcons : records = r0 :: rest) :
    verify_chain F (setChainPrev r0 (.str s) :: rest) DOMAIN = (true, none, none) := by
  subst hcons
  cases payloads with
  | nil => simp [buildChain, pure, Except.pure] at hb
  | cons p t =>
      unfold buildChain at hb
      cases hmr : make_record F p none with
      | error e => rw [hmr] at hb; simp [Bind.bind, Except.bind] at hb
      | ok r =>
          rw [hmr] at hb
          simp only [Bind.bind, Except.bind] at hb
          obtain ⟨hnc, d, hch, hr⟩ := make_record_ok hmr
          cases hbc : buildChain F (storedHash r) t with
          | error e => rw [hbc] at hb; simp [Functor.map, Except.map] at hb
          | ok rest2 =>
              rw [hbc] at hb
              simp only [Functor.map, Except.map, pure, Except.pure, Except.ok.injEq] at hb
              obtain ⟨hr0, hrest⟩ := List.cons.inj hb
              subst hr0
              subst hrest
              subst hr
              unfold verify_chain verify_chain_from
              rw [setChainPrev_built hnc (.str s)]
              rw [verify_link_prev_ignored hnc hch (.str s)]
              rw [storedHash_built hnc] at hbc
              rw [storedHash_built hnc]
              exact buildChain_verifies hbc

/-- C3 witness: a concrete one-record chain with its `prev` replaced by
`"ffff"` still verifies cleanly. -/
theorem c3_first_prev_arbitrary_witness :
    verify_chain testF [setChainPrev [("a", Json.num (JNum.fin 1 "1")),
      ("chain", Json.obj [("alg", .str "sha256"), ("hash", .str "ab"), ("prev", Json.null)])]
      (.str "ffff")] DOMAIN = (true, none, none) :=
  c3_first_prev_arbitrary testF [[("a", Json.num (JNum.fin 1 "1"))]]
    [[("a", Json.num (JNum.fin 1 "1")), ("chain", Json.obj [("alg", .str "sha256"), ("hash", .str "ab"), ("prev", Json.null)])]]
    [("a", Json.num (JNum.fin 1 "1")), ("chain", Json.obj [("alg", .str "sha256"), ("hash", .str "ab"), ("prev", Json.null)])]
    [] "ffff"
    (by simp +decide [buildChain, make_record, chain_hash, new_hasher, canonical_json,
        dumpJson, dumpEntries, dumpList, sortEntries, List.insertionSort, List.orderedInsert,
        encodeString, escChar, numToken, jlookup, List.find?, testF, storedHash, pyLower,
        Bind.bind, Except.bind, pure, Except.pure, prevJson, JNum.fin, String.join,
        Functor.map, Except.map])
    rfl



/-! ## C5: verification runs to completion with a structured verdict -/

theorem prevAt_cons (prev0 : Option String) (rec : Record) (rest : List Record) :
    ∀ i, prevAt prev0 (rec :: rest) (i + 1) = prevAt (storedHash rec) rest i := by
  intro i
  cases i with
  | zero => rfl
  | succ j => rfl

/-- `verify_chain_from` either accepts the whole suffix or reports the
earliest failing link (relative to the running index) with its reason. -/
theorem verify_chain_from_spec (F : HashFns) (domain : List Nat) :
    ∀ (records : List Record) (prev : Option String) (idx : Nat),
      verify_chain_from F domain prev idx records = (true, none, none) ∨
      ∃ j reason, j < records.length ∧
        verify_chain_from F domain prev idx records = (false, some (idx + j), some reason) ∧
        verify_link F (prevAt prev records j) (records.getD j []) domain = (false, reason) ∧
        ∀ i < j, (verify_link F (prevAt prev records i) (records.getD i []) domain).1 = true := by
  intro records
  induction records with
  | nil => intro prev idx; left; rfl
  | cons rec rest ih =>
      intro prev idx
      cases hvl : verify_link F prev rec domain with
      | mk ok reason =>
          cases ok with
          | false =>
              right
              refine ⟨0, reason, by simp, ?_, ?_, ?_⟩
              · unfold verify_chain_from
                rw [hvl]
                simp
              · simpa [prevAt] using hvl
              · intro i hi; omega
          | true =>
              have hstep : verify_chain_from F domain prev idx (rec :: rest)
                  = verify_chain_from F domain (storedHash rec) (idx + 1) rest := by
                conv_lhs => unfold verify_chain_from
                rw [hvl]
              rcases ih (storedHash rec) (idx + 1) with hok | ⟨j, reason2, hj, hres, hfail, hpass⟩
              · left; rw [hstep, hok]
              · right
                refine ⟨j + 1, reason2, by simp only [List.length_cons]; omega, ?_, ?_, ?_⟩
                · rw [hstep, hres]
                  have harith : idx + 1 + j = idx + (j + 1) := by omega
                  rw [harith]
                · rw [prevAt_cons]
                  simpa using hfail
                · intro i hi
                  cases i with
                  | zero => simp [prevAt, hvl]
                  | succ i2 =>
                      rw [prevAt_cons]
                      simpa using hpass i2 (by omega)



/-- On well-typed chain blocks, signature classification always returns a
status (the loop body cannot raise). -/
theorem classifySig_ok {env : CryptoEnv} {rec : Record} (h : ChainWT rec) :
    ∃ st, classifySig env rec = .ok st := by
  obtain ⟨l, hl, hs⟩ := h
  cases hsl : jlookup l "scheme" with
  | none =>
      unfold classifySig
      rw [hl]
      simp only [Bind.bind, Except.bind, hsl]
      repeat' split
      all_goals exact ⟨_, rfl⟩
  | some v =>
      rw [hsl] at hs
      unfold classifySig
      rw [hl]
      rcases hs with hf | ⟨s, rfl⟩
      · simp only [Bind.bind, Except.bind, hsl, hf, Bool.not_false, if_true]
        repeat' split
        all_goals exact ⟨_, rfl⟩
      · simp only [Bind.bind, Except.bind, hsl]
        repeat' split
        all_goals exact ⟨_, rfl⟩

/-- One verifier iteration succeeds on a well-typed record. -/
theorem vstep_ok {F : HashFns} {env : CryptoEnv} {st : VState} {rec : Record}
    (h : ChainWT rec) : ∃ st2, vstep F env st rec = .ok st2 := by
  obtain ⟨s, hcs⟩ := @classifySig_ok env rec h
  obtain ⟨l, hl, -⟩ := h
  unfold vstep
  rw [hl]
  simp only [Bind.bind, Except.bind]
  rw [hcs]
  exact ⟨_, rfl⟩

/-- The verifier scan runs to completion on well-typed records. -/
theorem vrun_ok {F : HashFns} {env : CryptoEnv} :
    ∀ {minutes : List Record} {st : VState}, (∀ rec ∈ minutes, ChainWT rec) →
      ∃ st2, vrun F env st minutes = .ok st2 := by
  intro minutes
  induction minutes with
  | nil => intro st _; exact ⟨st, rfl⟩
  | cons rec rest ih =>
      intro st hwt
      obtain ⟨st2, hst2⟩ := @vstep_ok F env st rec (hwt rec (by simp))
      obtain ⟨st3, hst3⟩ := ih (fun r hr => hwt r (by simp [hr]))
      refine ⟨st3, ?_⟩
      unfold vrun
      rw [hst2]
      simp only [Bind.bind, Except.bind]
      exact hst3

/-- C5 (amended): `hash_chain.verify_chain` never raises on arbitrarily
malformed records and yields either a clean verdict or the earliest failing
index with a reason; the report verifier additionally requires each record's
`chain` value (when truthy) to be a dict whose `scheme` (when truthy) is a
string, and then also runs to completion. -/
theorem c5_verdict_total (F : HashFns) (records : List Record)
    (env : CryptoEnv) (minutes : List Record)
    (hwt : ∀ rec ∈ minutes, ChainWT rec) :
    (verify_chain F records DOMAIN = (true, none, none) ∨
      ∃ j reason, j < records.length ∧
        verify_chain F records DOMAIN = (false, some j, some reason) ∧
        verify_link F (prevAt none records j) (records.getD j []) DOMAIN = (false, reason) ∧
        ∀ i < j, (verify_link F (prevAt none records i) (records.getD i []) DOMAIN).1 = true)
    ∧ ∃ v, verify_chain_and_signatures F env minutes = .ok v := by
  constructor
  · have h := verify_chain_from_spec F DOMAIN records none 0
    simpa [verify_chain] using h
  · obtain ⟨st, hst⟩ := @vrun_ok F env minutes VState.init hwt
    refine ⟨⟨⟨st.breaks.isEmpty, st.breaks, minutes.length⟩,
      ⟨st.total, st.valid, st.invalid, st.missing, st.unverified⟩,
      verdictLine minutes.length st.breaks
        ⟨st.total, st.valid, st.invalid, st.missing, st.unverified⟩⟩, ?_⟩
    unfold verify_chain_and_signatures
    rw [hst]
    simp only [Bind.bind, Except.bind]
    rfl

/-- C5 witness: the dichotomy evaluated on a malformed one-record chain and
a well-typed unsigned record. -/
theorem c5_verdict_total_witness :
    (verify_chain testF [[("foo", Json.null)]] DOMAIN = (true, none, none) ∨
      ∃ j reason, j < ([[("foo", Json.null)]] : List Record).length ∧
        verify_chain testF [[("foo", Json.null)]] DOMAIN = (false, some j, some reason) ∧
        verify_link testF (prevAt none [[("foo", Json.null)]] j)
          ([[("foo", Json.null)]].getD j []) DOMAIN = (false, reason) ∧
        ∀ i < j, (verify_link testF (prevAt none [[("foo", Json.null)]] i)
          ([[("foo", Json.null)]].getD i []) DOMAIN).1 = true)
    ∧ ∃ v, verify_chain_and_signatures testF strictEnv [[("x", Json.null)]] = .ok v :=
  c5_verdict_total testF [[("foo", Json.null)]] strictEnv [[("x", Json.null)]]
    (by
      intro rec hrec
      simp only [List.mem_singleton] at hrec
      subst hrec
      exact ⟨[], rfl, trivial⟩)

/-- C5 counterexample: the report verifier raises `AttributeError` on a
record whose `chain` value is a truthy non-dict, so "never raises" does not
hold for it as stated. -/
theorem c5_render_raises_counterexample :
    verify_chain_and_signatures testF strictEnv [[("chain", Json.str "x")]]
      = .error "AttributeError: object has no attribute get" := by
  simp +decide [verify_chain_and_signatures, vrun, vstep, chainDictOf, jgetD, jlookup,
    List.find?, Json.truthy, VState.init, Bind.bind, Except.bind]




/-! ## C4: tamper localization with full signature statistics -/

/-- `countSig` touches only the five counters. -/
theorem countSig_fields (s : VState) (st : SigStatus) :
    (s.countSig st).prevHash = s.prevHash ∧ (s.countSig st).idx = s.idx ∧
    (s.countSig st).breaks = s.breaks := by
  cases st <;> simp [VState.countSig]

/-- Inversion of a successful verifier iteration. -/
theorem vstep_inv {F : HashFns} {env : CryptoEnv} {st : VState} {rec : Record}
    {st2 : VState} (h : vstep F env st rec = .ok st2) :
    ∃ l status, chainDictOf rec = .ok l ∧ classifySig env rec = .ok status ∧
      st2 = VState.countSig
        ⟨some (jgetD l "hash" .null), st.idx + 1,
         (if isChainBreak (jgetD l "hash" .null)
             (recomputeHash F st.prevHash rec) then st.breaks ++ [st.idx] else st.breaks),
         st.total, st.valid, st.invalid, st.missing, st.unverified⟩ status := by
  unfold vstep at h
  cases hcd : chainDictOf rec with
  | error e => rw [hcd] at h; simp [Bind.bind, Except.bind] at h
  | ok l =>
      rw [hcd] at h
      simp only [Bind.bind, Except.bind] at h
      cases hcs : classifySig env rec with
      | error e => rw [hcs] at h; simp at h
      | ok status =>
          rw [hcs] at h
          simp only [pure, Except.pure, Except.ok.injEq] at h
          exact ⟨l, status, rfl, rfl, h.symm⟩

/-- Break indices only grow along the scan. -/
theorem vrun_breaks_mono {F : HashFns} {env : CryptoEnv} :
    ∀ {minutes : List Record} {st st2 : VState},
      vrun F env st minutes = .ok st2 → ∃ tail, st2.breaks = st.breaks ++ tail := by
  intro minutes
  induction minutes with
  | nil => intro st st2 h; cases h; exact ⟨[], by simp⟩
  | cons rec rest ih =>
      intro st st2 h
      unfold vrun at h
      cases hs : vstep F env st rec with
      | error e => rw [hs] at h; simp [Bind.bind, Except.bind] at h
      | ok stm =>
          rw [hs] at h
          simp only [Bind.bind, Except.bind] at h
          obtain ⟨tail2, ht2⟩ := ih h
          obtain ⟨l, status, -, -, hst⟩ := vstep_inv hs
          refine ⟨(if isChainBreak (jgetD l "hash" .null)
              (recomputeHash F st.prevHash rec) then [st.idx] else []) ++ tail2, ?_⟩
          rw [ht2, hst, (countSig_fields _ _).2.2]
          by_cases hbr : isChainBreak (jgetD l "hash" .null)
              (recomputeHash F st.prevHash rec) = true
          · simp [hbr]
          · simp [hbr]

/-- The five signature counters computed by the scan equal the pointwise
classification counts over the whole list. -/
theorem vrun_counters {F : HashFns} {env : CryptoEnv} :
    ∀ {minutes : List Record} {st st2 : VState},
      vrun F env st minutes = .ok st2 →
      ∃ sts, minutes.mapM (classifySig env) = .ok sts ∧
        st2.total = st.total + sts.countP (fun s => s ≠ SigStatus.missing) ∧
        st2.valid = st.valid + sts.countP (fun s => s = SigStatus.valid) ∧
        st2.invalid = st.invalid + sts.countP (fun s => s = SigStatus.invalid) ∧
        st2.missing = st.missing + sts.countP (fun s => s = SigStatus.missing) ∧
        st2.unverified = st.unverified + sts.countP (fun s => s = SigStatus.unverified) := by
  intro minutes
  induction minutes with
  | nil =>
      intro st st2 h
      cases h
      exact ⟨[], rfl, by simp, by simp, by simp, by simp, by simp⟩
  | cons rec rest ih =>
      intro st st2 h
      unfold vrun at h
      cases hs : vstep F env st rec with
      | error e => rw [hs] at h; simp [Bind.bind, Except.bind] at h
      | ok stm =>
          rw [hs] at h
          simp only [Bind.bind, Except.bind] at h
          obtain ⟨sts, hsts, h1, h2, h3, h4, h5⟩ := ih h
          obtain ⟨l, status, -, hcs, hst⟩ := vstep_inv hs
          refine ⟨status :: sts, ?_, ?_, ?_, ?_, ?_, ?_⟩
          · simp only [List.mapM_cons, hcs, hsts, Bind.bind, Except.bind, pure, Except.pure]
          · rw [h1, hst]; cases status <;> simp [VState.countSig, List.countP_cons] <;> omega
          · rw [h2, hst]; cases status <;> simp [VState.countSig, List.countP_cons] <;> omega
          · rw [h3, hst]; cases status <;> simp [VState.countSig, List.countP_cons] <;> omega
          · rw [h4, hst]; cases status <;> simp [VState.countSig, List.countP_cons] <;> omega
          · rw [h5, hst]; cases status <;> simp [VState.countSig, List.countP_cons] <;> omega



/-- The chain dict of a built-shaped record. -/
theorem chainDictOf_built {p : List (String × Json)} {ch : List (String × Json)}
    (hnc : jlookup p "chain" = none) (hne : ch ≠ []) :
    chainDictOf (p ++ [("chain", .obj ch)]) = .ok ch := by
  unfold chainDictOf
  have hg : jgetD (p ++ [("chain", .obj ch)]) "chain" (.obj []) = .obj ch := by
    unfold jgetD
    rw [jlookup_chain_built hnc]
  rw [hg]
  simp [Json.truthy, hne]

/-- Built-shaped records are well-typed for the report verifier. -/
theorem chainWT_built {p : List (String × Json)} {a hsh pv : Json}
    (hnc : jlookup p "chain" = none) :
    ChainWT (p ++ [("chain", .obj [("alg", a), ("hash", hsh), ("prev", pv)])]) := by
  refine ⟨[("alg", a), ("hash", hsh), ("prev", pv)], chainDictOf_built hnc (by simp), ?_⟩
  simp [jlookup, List.find?]

/-- Records without a signature block classify as `missing`. -/
theorem classifySig_built {env : CryptoEnv} {p : List (String × Json)} {a hsh pv : Json}
    (hnc : jlookup p "chain" = none) :
    classifySig env (p ++ [("chain", .obj [("alg", a), ("hash", hsh), ("prev", pv)])])
      = .ok .missing := by
  unfold classifySig
  rw [chainDictOf_built hnc (by simp)]
  simp only [Bind.bind, Except.bind]
  have hsch : jlookup [("alg", a), ("hash", hsh), ("prev", pv)] "scheme" = none := by
    simp [jlookup, List.find?]
  rw [hsch]
  simp +decide

/-- One verifier iteration on a built-shaped record whose stored hash may
have been altered: the recompute matches the build digest, the record is
counted `missing`, and a break is recorded exactly per `isChainBreak`. -/
theorem vstep_built {F : HashFns} {env : CryptoEnv} {st : VState}
    {p : List (String × Json)} {prev : Option String} {d hsh : String} {pv : Json}
    (hnc : jlookup p "chain" = none) (hch : chain_hash F prev p = .ok d)
    (hprev : st.prevHash = Option.map Json.str prev)
    (hpz : ∀ s, prev = some s → s ≠ "") :
    vstep F env st (p ++ [("chain", .obj [("alg", .str "sha256"),
        ("hash", .str hsh), ("prev", pv)])])
      = .ok ⟨some (.str hsh), st.idx + 1,
          (if isChainBreak (.str hsh) (some d) then st.breaks ++ [st.idx] else st.breaks),
          st.total, st.valid, st.invalid, st.missing + 1, st.unverified⟩ := by
  have hrc : recomputeHash F st.prevHash (p ++ [("chain", .obj [("alg", .str "sha256"),
      ("hash", .str hsh), ("prev", pv)])]) = some d := by
    unfold recomputeHash
    simp only [ne_eq, decide_not]
    have hfl : (p ++ [("chain", Json.obj [("alg", Json.str "sha256"),
        ("hash", Json.str hsh), ("prev", pv)])]).filter (fun q => !decide (q.1 = "chain")) = p := by
      rw [List.filter_append, filter_no_chain hnc]
      simp
    rw [hprev]
    cases prev with
    | none => simp only [Option.map]; rw [hfl, hch]; rfl
    | some s =>
        simp only [Option.map]
        have hs : s ≠ "" := hpz s rfl
        have htr : (Json.str s).truthy = true := by simp [Json.truthy, hs]
        rw [htr]
        simp only [Bool.not_true, Bool.false_eq_true, if_false]
        rw [hfl, hch]
        rfl
  unfold vstep
  rw [chainDictOf_built hnc (by simp)]
  simp only [Bind.bind, Except.bind]
  rw [classifySig_built hnc]
  have hh : jgetD [("alg", Json.str "sha256"), ("hash", Json.str hsh), ("prev", pv)]
      "hash" .null = .str hsh := by
    simp [jgetD, jlookup, List.find?]
  rw [hh, hrc]
  simp [VState.countSig]
  rfl



/-- Rewriting the `hash` binding of a built record. -/
theorem setChainHash_built {p : List (String × Json)} {a pv : Json} {d : String}
    (hnc : jlookup p "chain" = none) (h2 : String) :
    setChainHash (p ++ [("chain", .obj [("alg", a), ("hash", Json.str d), ("prev", pv)])]) h2
      = p ++ [("chain", .obj [("alg", a), ("hash", Json.str h2), ("prev", pv)])] := by
  unfold setChainHash
  rw [List.map_append]
  have hid : ∀ q ∈ p,
      (fun q : String × Json => if q.1 = "chain" then (q.1,
        match q.2 with
        | .obj ch => Json.obj (ch.map (fun w => if w.1 = "hash" then (w.1, Json.str h2) else w))
        | other => other) else q) q = q := by
    intro q hq
    have := List.find?_eq_none.mp (jlookup_eq_none.mp hnc) q hq
    simp only [decide_eq_true_eq] at this
    simp [this]
  rw [List.map_congr_left hid]
  simp +decide

/-- A successful default-algorithm chain hash is a SHA-256 digest. -/
theorem chain_hash_sha_shape {F : HashFns} {prev : Option String}
    {p : List (String × Json)} {d : String}
    (h : chain_hash F prev p "sha256" DOMAIN = .ok d) : ∃ bs, d = F.sha256hex bs := by
  unfold chain_hash at h
  rw [show new_hasher F "sha256" = .ok F.sha256hex from by
    simp [new_hasher, show pyLower "sha256" = "sha256" by decide]] at h
  simp only [Bind.bind, Except.bind, pure, Except.pure] at h
  repeat' split at h
  all_goals first
    | exact ⟨_, h.symm⟩
    | (simp only [Except.ok.injEq] at h
       exact ⟨_, h.symm⟩)
    | simp at h

/-- All records of a built chain are well-typed for the report verifier. -/
theorem buildChain_WT {F : HashFns} :
    ∀ {ps : List (List (String × Json))} {prev : Option String} {records : List Record},
      buildChain F prev ps = .ok records → ∀ rec ∈ records, ChainWT rec := by
  intro ps
  induction ps with
  | nil => intro prev records h rec hrec; cases h; simp at hrec
  | cons p t ih =>
      intro prev records h rec hrec
      unfold buildChain at h
      cases hmr : make_record F p prev with
      | error e => rw [hmr] at h; simp [Bind.bind, Except.bind] at h
      | ok r =>
          rw [hmr] at h
          simp only [Bind.bind, Except.bind] at h
          cases hbc : buildChain F (storedHash r) t with
          | error e => rw [hbc] at h; simp [Functor.map, Except.map] at h
          | ok rest =>
              rw [hbc] at h
              simp only [Functor.map, Except.map, pure, Except.pure, Except.ok.injEq] at h
              subst h
              obtain ⟨hnc, dd, hch, hr⟩ := make_record_ok hmr
              rcases List.mem_cons.mp hrec with rfl | hmem
              · rw [hr]; exact chainWT_built hnc
              · exact ih hbc rec hmem



/-- Core of the tamper-localization property: running the report verifier
over a built chain whose k-th stored hash has been altered appends exactly
one break at relative index k for the prefix up to k, and the scan still
completes. -/
theorem c4_core {F : HashFns} {env : CryptoEnv} (hF : HexDigestFns F) :
    ∀ {ps : List (List (String × Json))} {prev : Option String} {records : List Record},
      buildChain F prev ps = .ok records →
      ∀ {st : VState}, st.prevHash = Option.map Json.str prev →
      (∀ s, prev = some s → s ≠ "") →
      ∀ (k : Nat), k < records.length →
      ∀ (h2 : String), storedHash (records.getD k []) ≠ some h2 →
      ∃ st2 tail,
        vrun F env st (records.set k (setChainHash (records.getD k []) h2)) = .ok st2 ∧
        st2.breaks = st.breaks ++ (st.idx + k) :: tail := by
  intro ps
  induction ps with
  | nil => intro prev records hb st _ _ k hk h2 _; cases hb; simp at hk
  | cons p t ih =>
      intro prev records hb st hprev hpz k hk h2 hne
      unfold buildChain at hb
      cases hmr : make_record F p prev with
      | error e => rw [hmr] at hb; simp [Bind.bind, Except.bind] at hb
      | ok r =>
          rw [hmr] at hb
          simp only [Bind.bind, Except.bind] at hb
          obtain ⟨hnc, d, hch, hr⟩ := make_record_ok hmr
          cases hbc : buildChain F (storedHash r) t with
          | error e => rw [hbc] at hb; simp [Functor.map, Except.map] at hb
          | ok rest =>
              rw [hbc] at hb
              simp only [Functor.map, Except.map, pure, Except.pure, Except.ok.injEq] at hb
              subst hb
              obtain ⟨bs, hd⟩ := chain_hash_sha_shape hch
              have hdz : d ≠ "" := hd ▸ (hF bs).1
              cases k with
              | zero =>
                  simp only [List.set, List.getD, List.get?, Option.getD] at hne ⊢
                  rw [hr] at hne ⊢
                  rw [storedHash_built hnc] at hne
                  have hdh2 : d ≠ h2 := fun hcontra => hne (by rw [hcontra])
                  rw [setChainHash_built hnc h2]
                  have hbreak : isChainBreak (Json.str h2) (some d) = true := by
                    by_cases hz : h2 = ""
                    · subst hz; simp [isChainBreak, Json.truthy]
                    · simp [isChainBreak, Json.truthy, Json.eqStr, hz, hdz]
                      exact fun hcontra => hdh2 hcontra.symm
                  unfold vrun
                  rw [vstep_built hnc hch hprev hpz]
                  simp only [Bind.bind, Except.bind, hbreak, if_true]
                  have hWT : ∀ rec ∈ rest, ChainWT rec := buildChain_WT hbc
                  obtain ⟨st3, hst3⟩ := @vrun_ok F env rest
                    ⟨some (Json.str h2), st.idx + 1, st.breaks ++ [st.idx],
                     st.total, st.valid, st.invalid, st.missing + 1, st.unverified⟩ hWT
                  obtain ⟨tail2, ht2⟩ := vrun_breaks_mono hst3
                  refine ⟨st3, tail2, hst3, ?_⟩
                  rw [ht2]
                  simp
              | succ j =>
                  simp only [List.set, List.getD, List.get?, Option.getD] at hne ⊢
                  rw [hr]
                  unfold vrun
                  rw [vstep_built hnc hch hprev hpz]
                  have hnobreak : isChainBreak (Json.str d) (some d) = false := by
                    simp [isChainBreak, Json.truthy, Json.eqStr, hdz]
                  simp only [Bind.bind, Except.bind, hnobreak, if_false]
                  rw [hr] at hbc
                  rw [storedHash_built hnc] at hbc
                  have hk2 : j < rest.length := by
                    rw [hr] at hk; simpa using Nat.lt_of_succ_lt_succ hk
                  obtain ⟨st3, tail, hst3, hbr⟩ := @ih (some d) rest hbc
                    ⟨some (Json.str d), st.idx + 1, st.breaks, st.total, st.valid,
                     st.invalid, st.missing + 1, st.unverified⟩ rfl
                    (fun s hs => by cases hs; exact hdz) j hk2 h2 hne
                  refine ⟨st3, tail, hst3, ?_⟩
                  rw [hbr]
                  simp only []
                  have : st.idx + 1 + j = st.idx + (j + 1) := by omega
                  rw [this]



/-- C4: altering record k's stored chain hash in a correctly built chain
makes the report verifier return ok=false with k as the first reported break
index, while the signature summary counters are still the pointwise
classification counts over all N records (those beyond k included). -/
theorem c4_first_break_and_full_counters (F : HashFns) (env : CryptoEnv)
    (payloads : List (List (String × Json))) (records : List Record)
    (k : Nat) (h2 : String)
    (hF : HexDigestFns F)
    (hb : buildChain F none payloads = .ok records)
    (hk : k < records.length)
    (hne : storedHash (records.getD k []) ≠ some h2) :
    ∃ v, verify_chain_and_signatures F env
        (records.set k (setChainHash (records.getD k []) h2)) = .ok v ∧
      v.chain.ok = false ∧
      v.chain.break_indices.head? = some k ∧
      v.chain.n = records.length ∧
      sigCounts env (records.set k (setChainHash (records.getD k []) h2)) = .ok v.sigs := by
  obtain ⟨st2, tail, hrun, hbr⟩ := @c4_core F env hF payloads none records hb VState.init
    rfl (fun s hs => by cases hs) k hk h2 hne
  have hbr2 : st2.breaks = k :: tail := by simpa [VState.init] using hbr
  refine ⟨⟨⟨st2.breaks.isEmpty, st2.breaks,
      (records.set k (setChainHash (records.getD k []) h2)).length⟩,
    ⟨st2.total, st2.valid, st2.invalid, st2.missing, st2.unverified⟩,
    verdictLine (records.set k (setChainHash (records.getD k []) h2)).length st2.breaks
      ⟨st2.total, st2.valid, st2.invalid, st2.missing, st2.unverified⟩⟩, ?_, ?_, ?_, ?_, ?_⟩
  · unfold verify_chain_and_signatures
    rw [hrun]
    rfl
  · simp [hbr2]
  · simp [hbr2]
  · simp
  · obtain ⟨sts, hsts, h1, h2c, h3, h4, h5⟩ := vrun_counters hrun
    unfold sigCounts
    rw [hsts]
    simp only [Bind.bind, Except.bind, pure, Except.pure]
    simp only [VState.init] at h1 h2c h3 h4 h5
    simp [h1, h2c, h3, h4, h5]

/-- C4 witness: a concrete two-record chain with the first stored hash
altered to `"cd"`. -/
theorem c4_first_break_and_full_counters_witness :
    ∃ v, verify_chain_and_signatures testF strictEnv
        ((buildTwo).set 0 (setChainHash ((buildTwo).getD 0 []) "cd")) = .ok v ∧
      v.chain.ok = false ∧
      v.chain.break_indices.head? = some 0 ∧
      v.chain.n = buildTwo.length ∧
      sigCounts strictEnv ((buildTwo).set 0 (setChainHash ((buildTwo).getD 0 []) "cd"))
        = .ok v.sigs :=
  c4_first_break_and_full_counters testF strictEnv
    [[("a", Json.num (JNum.fin 1 "1"))], [("b", Json.num (JNum.fin 2 "2"))]]
    buildTwo 0 "cd"
    (fun _ => ⟨(by decide : ("ab" : String) ≠ ""),
               (by decide : (bytesFromHex? "ab").isSome = true)⟩)
    (by
      simp +decide [buildChain, make_record, chain_hash, new_hasher, canonical_json,
        dumpJson, dumpEntries, dumpList, sortEntries, List.insertionSort, List.orderedInsert,
        encodeString, escChar, numToken, jlookup, List.find?, testF, storedHash, pyLower,
        Bind.bind, Except.bind, pure, Except.pure, prevJson, JNum.fin, String.join,
        Functor.map, Except.map, buildTwo, bytesFromHex?, bytesFromHexChars, hexDigitVal?])
    (by decide)
    (by decide)




/-! ## C2: Ed25519 classification and the raw-payload back-compat path -/

/-- C2 (amended): with the PyNaCl backend present, a record whose chain block
carries `scheme="ed25519"`, a hex signature and a 32-byte hex public key is
classified `valid` precisely when the signature verifies over
`SIGN_DOMAIN || canonical(payload)` *or* — the back-compat path — over the
raw `canonical(payload)` without the domain prefix. -/
theorem c2_valid_iff_domain_or_raw (env : CryptoEnv) (p ch : List (String × Json))
    (sigs pks cj : String) (pk sig : List Nat)
    (hnc : jlookup p "chain" = none)
    (hchne : ch ≠ [])
    (hsch : jlookup ch "scheme" = some (.str "ed25519"))
    (hsig : jlookup ch "signature_hex" = some (.str sigs)) (hsz : sigs ≠ "")
    (hpk : jlookup ch "public_key_hex" = some (.str pks)) (hpz : pks ≠ "")
    (hnacl : env.haveNacl = true)
    (hpkb : bytesFromHex? pks = some pk) (hlen : pk.length = 32)
    (hsb : bytesFromHex? sigs = some sig)
    (hcj : canonical_json (.obj p) = .ok cj) :
    classifySig env (p ++ [("chain", .obj ch)]) =
      .ok (if env.naclVerify pk (SIGN_DOMAIN ++ utf8Bytes cj) sig
             || env.naclVerify pk (utf8Bytes cj) sig
           then .valid else .invalid) := by
  unfold classifySig
  rw [chainDictOf_built hnc hchne]
  have hflt : (p ++ [("chain", Json.obj ch)]).filter (fun q => !decide (q.1 = "chain")) = p := by
    rw [List.filter_append, filter_no_chain hnc]
    simp
  simp only [Bind.bind, Except.bind, ne_eq, decide_not, hflt]
  simp only [hsch, hsig, hpk, hnacl, hpkb, hsb, hcj]
  simp +decide [Json.truthy, hsz, hpz, hlen,
    show pyLower "ed25519" = "ed25519" from by decide]
  by_cases hdom : env.naclVerify pk (SIGN_DOMAIN ++ utf8Bytes cj) sig = true
  · simp [hdom]
    rfl
  · simp only [Bool.not_eq_true] at hdom
    rw [hdom]
    by_cases hraw : env.naclVerify pk (utf8Bytes cj) sig = true
    · simp [hraw]
      rfl
    · simp only [Bool.not_eq_true] at hraw
      rw [hraw]
      simp
      rfl


/-- C2 counterexample: a signature that verifies only over the raw canonical
payload (not over the domain-separated message) is still classified
`valid`, via the back-compat retry in `_verify_chain_and_signatures`. -/
theorem c2_raw_only_classified_valid_counterexample :
    classifySig rawOnlyEnv signedRec = .ok .valid ∧
    rawOnlyEnv.naclVerify (List.replicate 32 0)
      (SIGN_DOMAIN ++ utf8Bytes "\x7b\"a\":1\x7d") [255] = false := by
  constructor
  · simp +decide [classifySig, rawOnlyEnv, signedRec, chainDictOf, jgetD, jlookup,
      List.find?, Json.truthy, pyLower, bytesFromHex?, bytesFromHexChars, hexDigitVal?,
      canonical_json, dumpJson, dumpEntries, dumpList, sortEntries, List.insertionSort,
      List.orderedInsert, encodeString, escChar, numToken, JNum.fin, String.join,
      Bind.bind, Except.bind, pure, Except.pure, SIGN_DOMAIN, utf8Bytes, utf8EncodeCharNat]
  · decide

/-- C2 witness: the amended classification rule evaluated on the concrete
raw-signed record. -/
theorem c2_valid_iff_domain_or_raw_witness :
    classifySig rawOnlyEnv ([("a", Json.num (JNum.fin 1 "1"))] ++
      [("chain", .obj [("scheme", Json.str "ed25519"),
        ("signature_hex", Json.str "ff"),
        ("public_key_hex",
          Json.str "0000000000000000000000000000000000000000000000000000000000000000")])]) =
      .ok (if rawOnlyEnv.naclVerify (List.replicate 32 0)
              (SIGN_DOMAIN ++ utf8Bytes "\x7b\"a\":1\x7d") [255]
            || rawOnlyEnv.naclVerify (List.replicate 32 0) (utf8Bytes "\x7b\"a\":1\x7d") [255]
           then .valid else .invalid) :=
  c2_valid_iff_domain_or_raw rawOnlyEnv [("a", Json.num (JNum.fin 1 "1"))]
    [("scheme", Json.str "ed25519"), ("signature_hex", Json.str "ff"),
     ("public_key_hex",
       Json.str "0000000000000000000000000000000000000000000000000000000000000000")]
    "ff" "0000000000000000000000000000000000000000000000000000000000000000"
    "\x7b\"a\":1\x7d" (List.replicate 32 0) [255]
    rfl (by simp) rfl rfl (by decide) rfl (by decide) rfl
    (by decide) (by decide) (by decide)
    (by simp +decide [canonical_json, dumpJson, dumpEntries, dumpList, sortEntries,
      List.insertionSort, List.orderedInsert, encodeString, escChar, numToken, JNum.fin,
      String.join])



example (l : Except String String) : Bool := l.isOk
/-! ## C8: canonicalization and non-finite floats -/

/-- `Except.isOk` on the two constructors. -/
theorem isOk_ok {α : Type} (x : α) : (Except.ok x : Except String α).isOk = true := rfl

theorem isOk_error {α : Type} (e : String) :
    (Except.error e : Except String α).isOk = false := rfl

/-- `List.any` only depends on membership, hence is permutation-invariant. -/
theorem any_perm {α : Type} {l₁ l₂ : List α} (h : l₁.Perm l₂) (f : α → Bool) :
    l₁.any f = l₂.any f := by
  rw [Bool.eq_iff_iff]
  simp only [List.any_eq_true]
  constructor
  · rintro ⟨x, hx, hf⟩; exact ⟨x, h.mem_iff.mp hx, hf⟩
  · rintro ⟨x, hx, hf⟩; exact ⟨x, h.mem_iff.mpr hx, hf⟩

/-- Non-finiteness of entry lists is the `any` of the values. -/
theorem cNFE_eq_any : ∀ l : List (String × Json),
    containsNonFiniteEntries l = l.any (fun p => containsNonFinite p.2)
  | [] => rfl
  | (k, v) :: rest => by
      simp [containsNonFiniteEntries, cNFE_eq_any rest]

/-- Non-finiteness of element lists is the `any` of the elements. -/
theorem cNFL_eq_any : ∀ xs : List Json,
    containsNonFiniteList xs = xs.any containsNonFinite
  | [] => rfl
  | x :: xs => by
      simp [containsNonFiniteList, cNFL_eq_any xs]

/-- Sorting does not change whether some value is non-finite. -/
theorem cNFE_sortEntries (l : List (String × Json)) :
    containsNonFiniteEntries (sortEntries l) = containsNonFiniteEntries l := by
  rw [cNFE_eq_any, cNFE_eq_any]
  exact any_perm (List.perm_insertionSort _ l) _

/-- The serializer succeeds exactly when `allow_nan` is set or no non-finite
float occurs. -/
theorem dumpJson_isOk (an ea : Bool) :
    ∀ j, (dumpJson an ea j).isOk = (an || !containsNonFinite j) := by
  intro j
  refine dumpJson.induct an ea
    (fun j => (dumpJson an ea j).isOk = (an || !containsNonFinite j))
    (fun l => (dumpEntries an ea l).isOk = (an || !containsNonFiniteEntries l))
    (fun xs => (dumpList an ea xs).isOk = (an || !containsNonFiniteList xs))
    ?_ ?_ ?_ ?_ ?_ ?_ ?_ ?_ ?_ ?_ ?_ ?_ j
  · simp [dumpJson, containsNonFinite, isOk_ok]
  · simp [dumpJson, containsNonFinite, isOk_ok]
  · simp [dumpJson, containsNonFinite, isOk_ok]
  · intro n h
    rcases h with hf | ha
    · simp [dumpJson, containsNonFinite, isOk_ok, JNum.isFinite, hf]
    · simp [dumpJson, containsNonFinite, isOk_ok, ha]
  · intro n h
    push_neg at h
    obtain ⟨hf, ha⟩ := h
    simp only [Bool.not_eq_true] at ha
    have hni : ¬ (n.kind = NumKind.finite ∨ an = true) := by
      intro hc; rcases hc with hc | hc
      · exact hf hc
      · rw [ha] at hc; exact Bool.false_ne_true hc
    simp [dumpJson, containsNonFinite, isOk_error, JNum.isFinite, hf, ha, hni]
  · intro s
    simp [dumpJson, containsNonFinite, isOk_ok]
  · intro xs ih
    have hsplit : (dumpJson an ea (.arr xs)).isOk = (dumpList an ea xs).isOk := by
      cases hdl : dumpList an ea xs with
      | error e => simp [dumpJson, hdl, Bind.bind, Except.bind, isOk_error, isOk_ok]
      | ok ss => simp [dumpJson, hdl, Bind.bind, Except.bind, isOk_error, isOk_ok]
    rw [hsplit, ih, containsNonFinite]
  · intro kvs ih
    have hsplit : (dumpJson an ea (.obj kvs)).isOk
        = (dumpEntries an ea (sortEntries kvs)).isOk := by
      cases hde : dumpEntries an ea (sortEntries kvs) with
      | error e => simp [dumpJson, hde, Bind.bind, Except.bind, isOk_error, isOk_ok]
      | ok es => simp [dumpJson, hde, Bind.bind, Except.bind, isOk_error, isOk_ok]
    rw [hsplit, ih, containsNonFinite, cNFE_sortEntries]
  · simp [dumpEntries, containsNonFiniteEntries, isOk_ok]
  · intro k v rest ih1 ih2
    have hsplit : (dumpEntries an ea ((k, v) :: rest)).isOk
        = ((dumpJson an ea v).isOk && (dumpEntries an ea rest).isOk) := by
      cases hv : dumpJson an ea v with
      | error e => simp [dumpEntries, hv, Bind.bind, Except.bind, isOk_error, isOk_ok]
      | ok sv =>
          cases hr : dumpEntries an ea rest with
          | error e => simp [dumpEntries, hv, hr, Bind.bind, Except.bind, isOk_error, isOk_ok]
          | ok srest => simp [dumpEntries, hv, hr, Bind.bind, Except.bind, isOk_error, isOk_ok]
    rw [hsplit, ih1, ih2, containsNonFiniteEntries]
    cases an <;> cases hb : containsNonFinite v <;>
      cases hc : containsNonFiniteEntries rest <;> simp
  · simp [dumpList, containsNonFiniteList, isOk_ok]
  · intro x xs ih1 ih2
    have hsplit : (dumpList an ea (x :: xs)).isOk
        = ((dumpJson an ea x).isOk && (dumpList an ea xs).isOk) := by
      cases hv : dumpJson an ea x with
      | error e => simp [dumpList, hv, Bind.bind, Except.bind, isOk_error, isOk_ok]
      | ok sv =>
          cases hr : dumpList an ea xs with
          | error e => simp [dumpList, hv, hr, Bind.bind, Except.bind, isOk_error, isOk_ok]
          | ok srest => simp [dumpList, hv, hr, Bind.bind, Except.bind, isOk_error, isOk_ok]
    rw [hsplit, ih1, ih2, containsNonFiniteList]
    cases an <;> cases hb : containsNonFinite x <;>
      cases hc : containsNonFiniteList xs <;> simp


/-- C8 (amended): the chain canonicalizer fails exactly on payloads that
recursively contain a non-finite float, while the legacy
`integrity.canonical_json` (default `allow_nan=True`) never raises. -/
theorem c8_error_iff_nonfinite :
    (∀ j : Json, (canonical_json j).isOk = !containsNonFinite j)
    ∧ ∀ d : List (String × Json), (integrity_canonical_json d).isOk = true := by
  constructor
  · intro j
    rw [canonical_json, dumpJson_isOk]
    simp
  · intro d
    rw [integrity_canonical_json, dumpJson_isOk]
    simp

/-- C8 counterexample: `integrity.canonical_json` serializes a NaN payload
without raising (emitting the non-interoperable `NaN` token), so the claim
does not hold of that canonicalizer. -/
theorem c8_integrity_accepts_nan_counterexample :
    containsNonFinite (.obj [("x", Json.num ⟨0, .nan, "nan"⟩)]) = true ∧
    integrity_canonical_json [("x", Json.num ⟨0, .nan, "nan"⟩)]
      = .ok "\x7b\"x\":NaN\x7d" := by
  constructor
  · simp [containsNonFinite, containsNonFiniteEntries, JNum.isFinite]
  · simp +decide [integrity_canonical_json, dumpJson, dumpEntries, dumpList, sortEntries,
      List.insertionSort, List.orderedInsert, encodeString, escChar, numToken,
      Json.isNull, Bind.bind, Except.bind, pure, Except.pure, String.join]

/-! ## C7: key-order invariance of `canonical_json` -/

/-- Pointwise-related entry lists have identical key sequences. -/
theorem keyPermEntries_keys : ∀ {l₁ l₂ : List (String × Json)},
    KeyPermEntries l₁ l₂ → l₁.map Prod.fst = l₂.map Prod.fst
  | _, _, .nil => rfl
  | _, _, .cons hv ht => by
      rw [List.map_cons, List.map_cons, keyPermEntries_keys ht]

/-- Values of an object are smaller than the object. -/
theorem sizeOf_mem_obj : ∀ {l : List (String × Json)} {k : String} {v : Json},
    (k, v) ∈ l → sizeOf v < sizeOf (Json.obj l) := by
  intro l
  induction l with
  | nil => intro k v h; simp at h
  | cons p t ih =>
      intro k v h
      rcases List.mem_cons.mp h with rfl | hm
      · simp
        omega
      · have := ih hm
        simp at this ⊢
        omega

/-- Elements of an array are smaller than the array. -/
theorem sizeOf_mem_arr : ∀ {xs : List Json} {x : Json},
    x ∈ xs → sizeOf x < sizeOf (Json.arr xs) := by
  intro xs
  induction xs with
  | nil => intro x h; simp at h
  | cons y t ih =>
      intro x h
      rcases List.mem_cons.mp h with rfl | hm
      · simp
        omega
      · have := ih hm
        simp at this ⊢
        omega



/-- The sorted entry list of two permuted duplicate-free-key lists is the
same list. -/
theorem sortEntries_perm_eq {l₁ l₂ : List (String × Json)} (hp : l₁.Perm l₂)
    (hnd : (l₁.map Prod.fst).Nodup) : sortEntries l₁ = sortEntries l₂ := by
  have hs₁ : List.Sorted (fun a b : String × Json => a.1 ≤ b.1) (sortEntries l₁) :=
    List.sorted_insertionSort _ l₁
  have hs₂ : List.Sorted (fun a b : String × Json => a.1 ≤ b.1) (sortEntries l₂) :=
    List.sorted_insertionSort _ l₂
  have hperm : (sortEntries l₁).Perm (sortEntries l₂) :=
    ((List.perm_insertionSort _ l₁).trans hp).trans (List.perm_insertionSort _ l₂).symm
  have hnd₁ : ((sortEntries l₁).map Prod.fst).Nodup :=
    (hnd.perm ((List.perm_insertionSort _ l₁).map Prod.fst).symm)
  have hne₁ : (sortEntries l₁).Pairwise (fun a b : String × Json => a.1 ≠ b.1) :=
    (List.pairwise_map).mp hnd₁
  have hne₂ : (sortEntries l₂).Pairwise (fun a b : String × Json => a.1 ≠ b.1) := by
    have hnd₂ : ((sortEntries l₂).map Prod.fst).Nodup :=
      hnd₁.perm (hperm.map Prod.fst)
    exact (List.pairwise_map).mp hnd₂
  have hlt₁ : List.Sorted (fun a b : String × Json => a.1 < b.1) (sortEntries l₁) :=
    (hs₁.and hne₁).imp (fun h => lt_of_le_of_ne h.1 h.2)
  have hlt₂ : List.Sorted (fun a b : String × Json => a.1 < b.1) (sortEntries l₂) :=
    (hs₂.and hne₂).imp (fun h => lt_of_le_of_ne h.1 h.2)
  exact List.eq_of_perm_of_sorted hperm hlt₁ hlt₂

/-- Ordered insertion respects the pointwise entry relation (the comparisons
only read keys, which coincide). -/
theorem orderedInsert_keyPerm : ∀ {t₁ t₂ : List (String × Json)},
    KeyPermEntries t₁ t₂ → ∀ {k : String} {v w : Json}, KeyPerm v w →
    KeyPermEntries (List.orderedInsert (fun a b => a.1 ≤ b.1) (k, v) t₁)
                   (List.orderedInsert (fun a b => a.1 ≤ b.1) (k, w) t₂)
  | _, _, .nil, k, v, w, hvw => .cons hvw .nil
  | _, _, .cons hv ht, k, v, w, hvw => by
      rename_i k2 v2 w2 t₁ t₂
      by_cases hk : k ≤ k2
      · simp only [List.orderedInsert, hk, if_true]
        exact .cons hvw (.cons hv ht)
      · simp only [List.orderedInsert, hk, if_false]
        exact .cons hv (orderedInsert_keyPerm ht hvw)

/-- Sorting respects the pointwise entry relation. -/
theorem sortEntries_keyPerm : ∀ {l₁ l₂ : List (String × Json)},
    KeyPermEntries l₁ l₂ → KeyPermEntries (sortEntries l₁) (sortEntries l₂)
  | _, _, .nil => .nil
  | _, _, .cons hv ht => orderedInsert_keyPerm (sortEntries_keyPerm ht) hv



/-- Congruence of `dumpList` along the pointwise relation, given elementwise
equality of the serializations. -/
theorem dumpList_congr (an ea : Bool) :
    ∀ {xs ys : List Json}, KeyPermList xs ys →
    (∀ x ∈ xs, ∀ y, KeyPerm x y → dumpJson an ea x = dumpJson an ea y) →
    dumpList an ea xs = dumpList an ea ys
  | _, _, .nil, _ => rfl
  | _, _, .cons hxy ht, hih => by
      rename_i x y xs ys
      have h1 : dumpJson an ea x = dumpJson an ea y :=
        hih x (List.mem_cons_self x xs) y hxy
      have h2 : dumpList an ea xs = dumpList an ea ys :=
        dumpList_congr an ea ht (fun x hx y hxy => hih x (List.mem_cons_of_mem _ hx) y hxy)
      simp only [dumpList, h1, h2]

/-- Congruence of `dumpEntries` along the pointwise relation, given
elementwise equality of the value serializations. -/
theorem dumpEntries_congr (an ea : Bool) :
    ∀ {l₁ l₂ : List (String × Json)}, KeyPermEntries l₁ l₂ →
    (∀ p ∈ l₁, ∀ w, KeyPerm p.2 w → dumpJson an ea p.2 = dumpJson an ea w) →
    dumpEntries an ea l₁ = dumpEntries an ea l₂
  | _, _, .nil, _ => rfl
  | _, _, .cons hvw ht, hih => by
      rename_i k v w t₁ t₂
      have h1 : dumpJson an ea v = dumpJson an ea w :=
        hih (k, v) (List.mem_cons_self _ t₁) w hvw
      have h2 : dumpEntries an ea t₁ = dumpEntries an ea t₂ :=
        dumpEntries_congr an ea ht (fun p hp w hw => hih p (List.mem_cons_of_mem _ hp) w hw)
      simp only [dumpEntries, h1, h2]

/-- `json.dumps(·, sort_keys=True)` is invariant under re-ordering of object
keys at every nesting level, for payloads with duplicate-free keys. -/
theorem dumpJson_keyPerm (an ea : Bool) :
    ∀ N a b, sizeOf a ≤ N → KeyPerm a b → NodupKeys a →
      dumpJson an ea a = dumpJson an ea b := by
  intro N
  induction N using Nat.strong_induction_on with
  | _ N ih =>
    intro a b hsz hab hnd
    cases hab with
    | null => rfl
    | bool b => rfl
    | num n => rfl
    | str s => rfl
    | arr hxs =>
        rename_i xs ys
        cases hnd with
        | arr hnda =>
          have h : dumpList an ea xs = dumpList an ea ys := by
            apply dumpList_congr an ea hxs
            intro x hx y hxy
            have hszx : sizeOf x < sizeOf (Json.arr xs) := sizeOf_mem_arr hx
            exact ih (sizeOf x) (by omega) x y le_rfl hxy (hnda x hx)
          simp only [dumpJson, h]
    | obj hmid hperm =>
        rename_i l₁ lmid l₂
        cases hnd with
        | obj hknd hvnd =>
          have h1 : dumpEntries an ea (sortEntries l₁) = dumpEntries an ea (sortEntries lmid) := by
            apply dumpEntries_congr an ea (sortEntries_keyPerm hmid)
            intro p hp w hw
            have hp₁ : p ∈ l₁ := (List.perm_insertionSort _ l₁).mem_iff.mp hp
            obtain ⟨k, v⟩ := p
            have hszv : sizeOf v < sizeOf (Json.obj l₁) := sizeOf_mem_obj hp₁
            exact ih (sizeOf v) (by omega) v w le_rfl hw (hvnd (k, v) hp₁)
          have hkeys : (lmid.map Prod.fst).Nodup := by
            rw [← keyPermEntries_keys hmid]; exact hknd
          have h2 : sortEntries lmid = sortEntries l₂ := sortEntries_perm_eq hperm hkeys
          simp only [dumpJson, h1, h2]



/-- C7: `canonical_json` produces byte-identical output under any permutation
of the insertion order of object keys, recursively at every nesting level
(for payloads with duplicate-free keys, as Python dicts are), while array
element order is significant: permuting array elements changes the output. -/
theorem c7_canonical_json_key_order_invariant :
    (∀ a b : Json, NodupKeys a → KeyPerm a b → canonical_json a = canonical_json b) ∧
    canonical_json (Json.arr [Json.num (JNum.fin 1 "1"), Json.num (JNum.fin 2 "2")]) ≠
      canonical_json (Json.arr [Json.num (JNum.fin 2 "2"), Json.num (JNum.fin 1 "1")]) := by
  constructor
  · intro a b hnd hab
    exact dumpJson_keyPerm false false (sizeOf a) a b le_rfl hab hnd
  · simp +decide [canonical_json, dumpJson, dumpList, numToken, JNum.fin,
      Bind.bind, Except.bind, pure, Except.pure]

/-- C7 witness: two concrete objects with the same two bindings in swapped
insertion order canonicalize identically. -/
theorem c7_canonical_json_key_order_invariant_witness :
    canonical_json (Json.obj [("b", Json.num (JNum.fin 2 "2")), ("a", Json.num (JNum.fin 1 "1"))])
      = canonical_json (Json.obj [("a", Json.num (JNum.fin 1 "1")), ("b", Json.num (JNum.fin 2 "2"))]) := by
  apply c7_canonical_json_key_order_invariant.1
  · exact NodupKeys.obj (by decide)
      (by intro p hp; fin_cases hp <;> exact NodupKeys.num _)
  · exact KeyPerm.obj
      (KeyPermEntries.cons (KeyPerm.num _) (KeyPermEntries.cons (KeyPerm.num _) KeyPermEntries.nil))
      (List.Perm.swap ("a", Json.num (JNum.fin 1 "1")) ("b", Json.num (JNum.fin 2 "2")) [])

/-! ## C9 and C10: the rule evaluator -/

/-- Inversion of a successful `Except` bind. -/
theorem bind_ok {α β : Type} {ma : Except String α} {f : α → Except String β} {b : β}
    (h : ma >>= f = .ok b) : ∃ a, ma = .ok a ∧ f a = .ok b := by
  cases ma with
  | error e => exact absurd h (by simp [Bind.bind, Except.bind])
  | ok a => exact ⟨a, rfl, by simpa [Bind.bind, Except.bind] using h⟩

/-- Inversion of a successful `pure`. -/
theorem pure_ok {α : Type} {a b : α} (h : (pure a : Except String α) = .ok b) : a = b := by
  simpa [pure, Except.pure] using h

/-- An invariant preserved by each successful step is preserved by a
successful `foldlM`. -/
theorem foldlM_inv {α β : Type} {f : β → α → Except String β} {P : β → Prop}
    (hf : ∀ st a st', P st → f st a = .ok st' → P st') :
    ∀ {l : List α} {st st' : β}, P st → l.foldlM f st = .ok st' → P st'
  | [], st, st', hP, h => by
      simp only [List.foldlM] at h
      exact (pure_ok h) ▸ hP
  | a :: l, st, st', hP, h => by
      simp only [List.foldlM] at h
      obtain ⟨st₁, h₁, h₂⟩ := bind_ok h
      exact foldlM_inv hf (hf st a st₁ hP h₁) h₂

/-- Each flicker-loop step keeps `violations ≤ evaluated`. -/
theorem flickStep_viol_le (fc pm : List (String × Json)) (st : Nat × Nat × List ℚ)
    (m : Record) (st' : Nat × Nat × List ℚ) (hP : st.1 ≤ st.2.1)
    (h : flickStep fc pm st m = .ok st') : st'.1 ≤ st'.2.1 := by
  obtain ⟨v, e, vals⟩ := st
  simp only [flickStep] at h
  obtain ⟨lf, hlf, h⟩ := bind_ok h
  cases lf with
  | none =>
      simp only at h
      have he := pure_ok h
      rw [← he]
      exact hP
  | some p =>
      obtain ⟨f, mod⟩ := p
      simp only at h
      obtain ⟨lo, hlo, h⟩ := bind_ok h
      obtain ⟨hi, hhi, h⟩ := bind_ok h
      obtain ⟨alw, halw, h⟩ := bind_ok h
      have he := pure_ok h
      rw [← he]
      simp only at hP ⊢
      split <;> omega



/-- Shape of every successful `evaluate` result: the noise block's
percentage is a guarded `pct_over_of` and the flicker block's percentage is
`pct_viol_of` with `violations ≤ evaluated`. -/
theorem evaluate_ok_inv (minutes : List Record) (profile : List (String × Json))
    (locale : Option String) (out : EvalOut)
    (h : evaluate minutes profile locale = .ok out) :
    (∀ no, out.noise = some no → ∃ lq vals, no.pct_over = pct_over_of lq vals) ∧
    (∀ fo, out.flicker = some fo →
        fo.pct_violations = pct_viol_of fo.violations fo.evaluated ∧
        fo.violations ≤ fo.evaluated) := by
  by_cases hn : minutes.length = 0
  · simp only [evaluate, hn, if_pos] at h
    have he := pure_ok h
    rw [← he]
    exact ⟨fun no hno => by simp at hno, fun fo hfo => by simp at hfo⟩
  · simp only [evaluate] at h
    rw [if_neg hn] at h
    obtain ⟨noise_cfg, h1, h⟩ := bind_ok h
    obtain ⟨loc_norm, h2, h⟩ := bind_ok h
    obtain ⟨limitQ, h3, h⟩ := bind_ok h
    obtain ⟨laeqOpts, h4, h⟩ := bind_ok h
    obtain ⟨display_cfg, h5, h⟩ := bind_ok h
    obtain ⟨pctList, h6, h⟩ := bind_ok h
    obtain ⟨npcts, h7, h⟩ := bind_ok h
    obtain ⟨nthr, h8, h⟩ := bind_ok h
    obtain ⟨flick_cfg, h9, h⟩ := bind_ok h
    obtain ⟨pmCfg, h10, h⟩ := bind_ok h
    obtain ⟨fstate, h11, h⟩ := bind_ok h
    obtain ⟨fpcts, h12, h⟩ := bind_ok h
    obtain ⟨fthr, h13, h⟩ := bind_ok h
    have he := pure_ok h
    rw [← he]
    constructor
    · intro no hno
      simp only at hno
      rw [← Option.some_inj.mp hno]
      exact ⟨limitQ, laeqOpts.filterMap id, rfl⟩
    · intro fo hfo
      simp only at hfo
      rw [← Option.some_inj.mp hfo]
      refine ⟨rfl, ?_⟩
      exact foldlM_inv (flickStep_viol_le flick_cfg pmCfg) (by omega) h11



/-- A guarded percentage `100 * c / d` with `c ≤ d` lies in `[0, 100]`. -/
theorem pctFrac_bounds (c d : ℕ) (hcd : c ≤ d) (hd : 0 < d) :
    0 ≤ 100 * (c : ℚ) / (d : ℚ) ∧ 100 * (c : ℚ) / (d : ℚ) ≤ 100 := by
  have hdq : (0:ℚ) < d := by exact_mod_cast hd
  constructor
  · positivity
  · rw [div_le_iff hdq]
    have hcq : (c:ℚ) ≤ (d:ℚ) := by exact_mod_cast hcd
    nlinarith

/-- The noise percentage is always in `[0, 100]`. -/
theorem pct_over_of_bounds (lq : Option ℚ) (vals : List ℚ) :
    0 ≤ pct_over_of lq vals ∧ pct_over_of lq vals ≤ 100 := by
  unfold pct_over_of
  cases lq with
  | none => norm_num
  | some q =>
      by_cases he : vals.isEmpty
      · simp [he]
      · simp only [he, Bool.not_false, if_true]
        exact pctFrac_bounds _ _
          (le_trans (List.countP_le_length _) (le_max_left _ _))
          (lt_of_lt_of_le one_pos (le_max_right _ _))

/-- The flicker percentage is in `[0, 100]` whenever
`violations ≤ evaluated`. -/
theorem pct_viol_of_bounds (v e : ℕ) (hve : v ≤ e) :
    0 ≤ pct_viol_of v e ∧ pct_viol_of v e ≤ 100 := by
  unfold pct_viol_of
  exact pctFrac_bounds _ _ (le_trans hve (le_max_left _ _))
    (lt_of_lt_of_le one_pos (le_max_right _ _))

/-- C9: on the empty record stream `evaluate` returns immediately with
`flags = ["no data"]` and empty (absent) noise/flicker blocks; and on every
input on which it succeeds, both reported percentages come from guarded
denominators and lie in `[0, 100]`. -/
theorem c9_empty_and_guarded_percentages :
    (∀ profile locale, evaluate [] profile locale =
        .ok ⟨0, ["no data"], none, none,
             ⟨jgetD profile "profile_id" .null, jgetD profile "schema_version" .null,
              locale, none, none, []⟩⟩) ∧
    (∀ minutes profile locale out, evaluate minutes profile locale = .ok out →
       (∀ no, out.noise = some no → 0 ≤ no.pct_over ∧ no.pct_over ≤ 100) ∧
       (∀ fo, out.flicker = some fo → 0 ≤ fo.pct_violations ∧ fo.pct_violations ≤ 100)) := by
  constructor
  · intro profile locale
    rfl
  · intro minutes profile locale out h
    obtain ⟨hnoise, hflick⟩ := evaluate_ok_inv minutes profile locale out h
    constructor
    · intro no hno
      obtain ⟨lq, vals, hpo⟩ := hnoise no hno
      rw [hpo]
      exact pct_over_of_bounds lq vals
    · intro fo hfo
      obtain ⟨hpv, hle⟩ := hflick fo hfo
      rw [hpv]
      exact pct_viol_of_bounds _ _ hle



/-- C9 witness: a concrete one-record run succeeds and both its percentages
are within bounds. -/
theorem c9_empty_and_guarded_percentages_witness :
    0 ≤ c9NoiseEx.pct_over ∧ c9NoiseEx.pct_over ≤ 100 ∧
    0 ≤ c9FlickEx.pct_violations ∧ c9FlickEx.pct_violations ≤ 100 := by
  have h : evaluate [([] : Record)] [] none = .ok c9OutEx := by
    norm_num [evaluate, getSection, jgetD, jlookup, normalize_locale, limit_float_of,
      pyFloatE, pyFloat?, isPyNumber, pyNumVal, audioVal, List.mapM, List.mapM.loop,
      mean_laeq_of, pct_over_of, pct_list_of, pyStrOf, numToken, percentile,
      pm_cfg_of, List.foldlM, flickStep, lightFields, pct_viol_of, dedupFlags,
      Json.truthy, Bind.bind, Except.bind, pure, Except.pure, c9OutEx, c9NoiseEx,
      c9FlickEx, JNum.fin, List.foldl]
    exact ⟨rfl, rfl⟩
  have h2 := c9_empty_and_guarded_percentages.2 [([] : Record)] [] none c9OutEx h
  exact ⟨(h2.1 c9NoiseEx rfl).1, (h2.1 c9NoiseEx rfl).2,
         (h2.2 c9FlickEx rfl).1, (h2.2 c9FlickEx rfl).2⟩



set_option maxHeartbeats 1600000 in
/-- C10: for a positive frequency the allowed modulation is decided by the
first sorted segment with `f_min ≤ f ≤ f_max` (`a + b/f`, or the constant
`max_percent`, else the default; here stated without a global clamp), and a
record with both light fields counts as a violation exactly when its
(unclipped) measured modulation exceeds that allowed value; concretely, for
the segment `\x7bf_min:80, f_max:120, a:0.1, b:600\x7d` at `f = 100` the
allowed value is `0.1 + 600/100 = 6.1`, out-of-band frequencies fall back to
the default, and the 7 % record yields one evaluated record and one
violation. -/
theorem c10_first_segment_and_violation :
    (∀ f cfg ncfg dflt, 0 < f → normalize_curve_config cfg = .ok ncfg →
       pyFloatE ncfg.defaultVal = .ok dflt → ncfg.clip = none →
       allowed_mod_percent f cfg = .ok (max 0
         (match ncfg.segments.find? (fun s => decide (s.fMin ≤ f) && decide (f ≤ s.fMax)) with
          | some s => segAllowed dflt f s
          | none => dflt))) ∧
    (∀ fc pm m f mod alw st st',
       jgetD fc "clip_percent_mod_range" .null = .null →
       lightFields m = .ok (some (f, mod)) →
       allowed_mod_percent f pm = .ok alw →
       (flickStep fc pm st m = .ok st' ↔
         st' = (st.1 + (if mod > alw then 1 else 0), st.2.1 + 1, st.2.2 ++ [mod]))) ∧
    allowed_mod_percent 100 c10Curve = .ok (61/10) ∧
    allowed_mod_percent 10 c10Curve = .ok 5 ∧
    evaluate [c10Rec] c10Profile none = .ok c10OutEx := by
  refine ⟨?gen, ?step, ?conc, ?dflt, ?eval⟩
  case gen =>
    intro f cfg ncfg dflt hf hn hd hclip
    unfold allowed_mod_percent
    rw [if_neg (not_le.mpr hf)]
    simp [Bind.bind, Except.bind, hn, hd, hclip, pure, Except.pure]
  case step =>
    intro fc pm m f mod alw st st' hclip hlf halw
    obtain ⟨v, e, vals⟩ := st
    constructor
    · intro h
      simp only [flickStep, hlf, hclip, Bind.bind, Except.bind, clipBound, pyClip,
        halw, pure, Except.pure] at h
      simpa using h.symm
    · intro h
      subst h
      simp only [flickStep, hlf, hclip, Bind.bind, Except.bind, clipBound, pyClip,
        halw, pure, Except.pure]
  case conc =>
    simp +decide [allowed_mod_percent, normalize_curve_config, c10Curve, c10Seg, jgetD,
      jlookup, Json.truthy, parseSeg, pyFloat?, isPyNumber, pyNumVal, JNum.fin,
      clipOf, pyFloatE, segAllowed, List.insertionSort, List.orderedInsert,
      List.filterMap, List.find?, Bind.bind, Except.bind, Option.bind, pure,
      Except.pure]
    norm_num [max_def]
  case dflt =>
    simp +decide [allowed_mod_percent, normalize_curve_config, c10Curve, c10Seg, jgetD,
      jlookup, Json.truthy, parseSeg, pyFloat?, isPyNumber, pyNumVal, JNum.fin,
      clipOf, pyFloatE, segAllowed, List.insertionSort, List.orderedInsert,
      List.filterMap, List.find?, Bind.bind, Except.bind, Option.bind, pure,
      Except.pure]
  case eval =>
    simp +decide [evaluate, getSection, jgetD, jlookup, normalize_locale, limit_float_of,
      pyFloatE, pyFloat?, isPyNumber, pyNumVal, audioVal, List.mapM, List.mapM.loop,
      mean_laeq_of, pct_over_of, pct_list_of, pyStrOf, numToken, percentile,
      pm_cfg_of, List.foldlM, flickStep, lightFields, clipBound, pyClip,
      allowed_mod_percent, normalize_curve_config, parseSeg, clipOf, segAllowed,
      pct_viol_of, dedupFlags, fmtFixed, roundHalfEven, Json.truthy,
      List.insertionSort, List.orderedInsert, List.filterMap, List.find?,
      Bind.bind, Except.bind, Option.bind, pure, Except.pure,
      c10OutEx, c10Rec, c10Profile, c10Curve, c10Seg, JNum.fin, List.foldl]
    norm_num [max_def]
    decide



/-- C10 witness: one concrete flicker step on the 100 Hz / 7 % record with
the example curve registers exactly one evaluated record and one violation. -/
theorem c10_first_segment_and_violation_witness :
    flickStep [] c10Curve (0, 0, []) c10Rec = .ok (1, 1, [7]) := by
  have hlf : lightFields c10Rec = .ok (some (100, 7)) := by
    simp +decide [lightFields, c10Rec, jgetD, jlookup, Json.truthy, isPyNumber,
      pyNumVal, pyFloat?, JNum.fin, Bind.bind, Except.bind, pure, Except.pure,
      List.find?]
  have h := (c10_first_segment_and_violation.2.1 [] c10Curve c10Rec 100 7 (61/10)
      (0, 0, []) (1, 1, [7]) rfl hlf c10_first_segment_and_violation.2.2.1).mpr
  apply h
  norm_num

end AVSafe
